import Mathlib

/-!
Verification development for the kopium schema analyzer, type catalog and
override-rule engine.

The Rust source (src/analyzer.rs, src/output.rs, src/overrides.rs) is embedded
shallowly: each Rust function becomes a Lean function over an explicit data
model of `JSONSchemaProps` and the analyzer output types.  Machine integers of
the source (`u8` recursion levels, `u64` enum discriminants) are modelled by
`Nat`; fallible Rust functions returning `anyhow::Result` become
`Except String`.  Panics are modelled as `Except.error`.  The external regex
engine is abstracted by an explicit compile function; external string casing
(the heck crate) and identifier parsing (syn) are modelled directly for the
ASCII inputs the tool manipulates.
-/

namespace Kopium

/-! ## Output data model (src/output.rs) -/

/-- `MapType` from src/output.rs: the type used for additionalProperties maps. -/
inductive MapType where
  | BTreeMap
  | HashMap
deriving DecidableEq

/-- `MapType::name` from src/output.rs. -/
def MapType.name : MapType → String
  | .BTreeMap => "BTreeMap"
  | .HashMap => "HashMap"

/-- `Config` from src/analyzer.rs (the analyzer configuration). -/
structure Config where
  no_condition : Bool := false
  no_object_reference : Bool := false
  map : MapType := .BTreeMap
  relaxed : Bool := false
deriving DecidableEq

/-- `Member` from src/output.rs: an output member belonging to a Container. -/
structure Member where
  name : String
  type_ : String
  serde_annot : List String
  extra_annot : List String
  docs : Option String
deriving DecidableEq

/-- `Container` from src/output.rs.  The `supports_derive_default` OnceCell
cache is omitted: it only memoizes `can_derive_default`, which no embedded
function here consults.  The `u8` level is modelled as `Nat`. -/
structure Container where
  name : String := ""
  level : Nat := 0
  members : List Member := []
  docs : Option String := none
  is_enum : Bool := false
deriving DecidableEq

/-- `Output` from src/output.rs: all found containers. -/
abbrev Output := List Container

/-- Modelled from the spec: `Output::insert` (the deduplicated insert used by
`analyze_` in src/analyzer.rs) is absent from the sources; only its callers
appear.  Per the spec, adding a Container whose name already exists in the
catalog is a no-op — first occurrence wins — and otherwise the container is
appended. -/
def outputInsert (o : Output) (c : Container) : Output :=
  if o.any (fun x => x.name == c.name) then o else o ++ [c]

/-- Modelled from the spec: `Output::extend` (used by `analyze_` as
`results.extend(extras)`) is absent from the sources; per the spec it merges
catalogs with the same insert-or-ignore-by-name deduplication, inserting each
container of the second catalog in order. -/
def outputExtend (o : Output) (cs : List Container) : Output :=
  cs.foldl outputInsert o

/-! ## JSON values (`serde_json::Value` wrapped as `JSON` in k8s-openapi) -/

/-- Model of `serde_json::Number`.  `uint n` is a number for which `is_u64`
holds (the source only ever asks `is_u64` and renders with `to_string`);
`int n` is a negative integer; `float r` is a non-integral number, kept as its
rendered text since no embedded code computes with it. -/
inductive JNum where
  | uint (n : Nat)
  | int (n : Int)
  | float (text : String)
deriving DecidableEq

/-- Model of `serde_json::Value`.  Objects are association lists in key order
(serde_json is built with the ordered map representation in this crate). -/
inductive JValue where
  | null
  | bool (b : Bool)
  | num (n : JNum)
  | str (s : String)
  | arr (xs : List JValue)
  | obj (fields : List (String × JValue))

/-! ## Schema data model (`JSONSchemaProps` restricted to the fields the
embedded code reads).

`JSONSchemaPropsOrArray` is modelled as `Schema ⊕ List Schema`
(`.inl` = `Schema`, `.inr` = `Schemas`), and `JSONSchemaPropsOrBool` as
`Schema ⊕ Bool` (`.inl` = `Schema`, `.inr` = `Bool`), so that the whole model
is a single nested inductive.  `properties` is an association list in key
order, mirroring the `BTreeMap` of the source. -/
inductive Schema where
  | mk
    (type_ : Option String)
    (format : Option String)
    (description : Option String)
    (properties : Option (List (String × Schema)))
    (required : Option (List String))
    (items : Option (Schema ⊕ List Schema))
    (additionalItems : Option (Schema ⊕ List Schema))
    (additionalProperties : Option (Schema ⊕ Bool))
    (enum_ : Option (List JValue))
    (oneOf : Option (List Schema))
    (allOf : Option (List Schema))
    (anyOf : Option (List Schema))
    (not_ : Option Schema)
    (xIntOrString : Option Bool)
    (xPreserveUnknownFields : Option Bool)
    (xListType : Option String)
    (xMapType : Option String)

namespace Schema

def type_ : Schema → Option String
  | .mk t _ _ _ _ _ _ _ _ _ _ _ _ _ _ _ _ => t

def format : Schema → Option String
  | .mk _ f _ _ _ _ _ _ _ _ _ _ _ _ _ _ _ => f

def description : Schema → Option String
  | .mk _ _ d _ _ _ _ _ _ _ _ _ _ _ _ _ _ => d

def properties : Schema → Option (List (String × Schema))
  | .mk _ _ _ p _ _ _ _ _ _ _ _ _ _ _ _ _ => p

def required : Schema → Option (List String)
  | .mk _ _ _ _ r _ _ _ _ _ _ _ _ _ _ _ _ => r

def items : Schema → Option (Schema ⊕ List Schema)
  | .mk _ _ _ _ _ i _ _ _ _ _ _ _ _ _ _ _ => i

def additionalItems : Schema → Option (Schema ⊕ List Schema)
  | .mk _ _ _ _ _ _ a _ _ _ _ _ _ _ _ _ _ => a

def additionalProperties : Schema → Option (Schema ⊕ Bool)
  | .mk _ _ _ _ _ _ _ a _ _ _ _ _ _ _ _ _ => a

def enum_ : Schema → Option (List JValue)
  | .mk _ _ _ _ _ _ _ _ e _ _ _ _ _ _ _ _ => e

def oneOf : Schema → Option (List Schema)
  | .mk _ _ _ _ _ _ _ _ _ o _ _ _ _ _ _ _ => o

def allOf : Schema → Option (List Schema)
  | .mk _ _ _ _ _ _ _ _ _ _ a _ _ _ _ _ _ => a

def anyOf : Schema → Option (List Schema)
  | .mk _ _ _ _ _ _ _ _ _ _ _ a _ _ _ _ _ => a

def not_ : Schema → Option Schema
  | .mk _ _ _ _ _ _ _ _ _ _ _ _ n _ _ _ _ => n

def xIntOrString : Schema → Option Bool
  | .mk _ _ _ _ _ _ _ _ _ _ _ _ _ x _ _ _ => x

def xPreserveUnknownFields : Schema → Option Bool
  | .mk _ _ _ _ _ _ _ _ _ _ _ _ _ _ x _ _ => x

def xListType : Schema → Option String
  | .mk _ _ _ _ _ _ _ _ _ _ _ _ _ _ _ x _ => x

def xMapType : Schema → Option String
  | .mk _ _ _ _ _ _ _ _ _ _ _ _ _ _ _ _ x => x

end Schema

/-- An all-`none` schema node, convenient for building concrete test inputs. -/
def emptySchema : Schema :=
  .mk none none none none none none none none none none none none none none none none none

/-- Association-list lookup, modelling `BTreeMap::get` / `HashMap::get`. -/
def lookupAssoc {β : Type} (xs : List (String × β)) (k : String) : Option β :=
  match xs.find? (fun kv => kv.1 == k) with
  | some kv => some kv.2
  | none => none

/-- Association-list insert-or-replace, modelling `HashMap::insert`. -/
def insertAssoc {β : Type} (xs : List (String × β)) (k : String) (v : β) :
    List (String × β) :=
  match xs with
  | [] => [(k, v)]
  | kv :: rest => if kv.1 == k then (k, v) :: rest else kv :: insertAssoc rest k v

/-! ## Casing model (the heck crate: `ToSnakeCase`, `ToUpperCamelCase`,
`ToPascalCase`).

heck splits the input into words — segments are first split at
non-alphanumeric characters, then at case transitions — and re-joins them.
`ToPascalCase` and `ToUpperCamelCase` are the same transformation.  The model
follows heck's `transform` scanner; character classification is ASCII, which
agrees with the Unicode classification of the source on the ASCII names the
tool handles. -/

inductive WordMode where
  | Boundary
  | Lower
  | Upper
deriving DecidableEq

/-- The case-transition scanner of heck's `transform`, specialised to return
the list of words of one non-alphanumeric-free segment.  `acc` is the word
accumulated since the last boundary. -/
def caseSplitGo (mode : WordMode) (acc : List Char) : List Char → List (List Char)
  | [] => []
  | [c] => [acc ++ [c]]
  | c :: next :: rest =>
    let nextMode : WordMode :=
      if c.isLower then .Lower else if c.isUpper then .Upper else mode
    if nextMode = .Lower ∧ next.isUpper then
      (acc ++ [c]) :: caseSplitGo .Boundary [] (next :: rest)
    else if mode = .Upper ∧ c.isUpper ∧ next.isLower then
      acc :: caseSplitGo .Boundary [c] (next :: rest)
    else
      caseSplitGo nextMode (acc ++ [c]) (next :: rest)

/-- Splitting at non-alphanumeric characters (Rust `str::split` with a
`!c.is_alphanumeric()` pattern; empty segments contribute no words). -/
def segmentsGo (acc : List Char) : List Char → List (List Char)
  | [] => [acc.reverse]
  | c :: rest =>
    if c.isAlphanum then segmentsGo (c :: acc) rest
    else acc.reverse :: segmentsGo [] rest

/-- All heck words of a string: non-alphanumeric splitting, then case
splitting inside each segment. -/
def heckWords (s : String) : List (List Char) :=
  (segmentsGo [] s.data).flatMap (fun seg => caseSplitGo .Boundary [] seg)

/-- heck `ToSnakeCase`: lowercased words joined by underscores. -/
def toSnakeCase (s : String) : String :=
  String.intercalate "_" ((heckWords s).map (fun w => String.mk (w.map Char.toLower)))

/-- heck's `capitalize`: first char uppercased, the rest lowercased. -/
def capitalizeWord : List Char → List Char
  | [] => []
  | c :: rest => c.toUpper :: rest.map Char.toLower

/-- heck `ToUpperCamelCase` = `ToPascalCase`: capitalized words joined
directly. -/
def toUpperCamelCase (s : String) : String :=
  String.join ((heckWords s).map (fun w => String.mk (capitalizeWord w)))

/-! ## Identifier escaping (src/output.rs `Container::try_escape_name`).

`syn::parse_str::<syn::Ident>` succeeds on a non-keyword identifier, or on a
raw identifier `r#name` whose inner name is identifier-shaped and is not one
of the path keywords nor a lone underscore.  The model is ASCII. -/

/-- The keywords rejected by syn when parsing a plain `Ident`. -/
def rustKeywords : List String :=
  ["abstract", "as", "async", "await", "become", "box", "break", "const",
   "continue", "crate", "do", "dyn", "else", "enum", "extern", "false",
   "final", "fn", "for", "if", "impl", "in", "let", "loop", "macro", "match",
   "mod", "move", "mut", "override", "priv", "pub", "ref", "return", "Self",
   "self", "static", "struct", "super", "trait", "true", "try", "type",
   "typeof", "unsafe", "unsized", "use", "virtual", "where", "while", "yield"]

/-- Identifier-shaped: a letter or underscore followed by letters, digits and
underscores. -/
def isIdentShaped (s : String) : Bool :=
  match s.data with
  | [] => false
  | c :: rest => (c.isAlpha || c == '_') && rest.all (fun d => d.isAlphanum || d == '_')

/-- Model of `syn::parse_str::<syn::Ident>(s).is_ok()`.  The `r#` prefix test
and the prefix removal are written on the character lists. -/
def synParseIdent (s : String) : Bool :=
  if "r#".data.isPrefixOf s.data then
    let inner := String.mk (s.data.drop 2)
    isIdentShaped inner && inner != "_" &&
      !(["self", "Self", "super", "crate"].contains inner)
  else
    isIdentShaped s && s != "_" && !(rustKeywords.contains s)

/-- `Container::try_escape_name` from src/output.rs: try the name itself, then
its `r#` form, then its `r#_` form. -/
def tryEscapeName (name : String) : Option String :=
  if synParseIdent name then some name
  else if synParseIdent ("r#" ++ name) then some ("r#" ++ name)
  else if synParseIdent ("r#_" ++ name) then some ("r#_" ++ name)
  else none

/-! ## The rename pass (src/output.rs `Container::rename`). -/

/-- The disambiguation loop of `Container::rename`: while the name was already
emitted, append the suffix.  The source's `while` loop always terminates
because the candidate names strictly grow; it is modelled with explicit fuel,
and `rename` supplies `seen.length + 1` fuel, which `disambiguateFuel_spec`
below proves sufficient. -/
def disambiguate (seen : List String) (suffix : String) (fuel : Nat) (name : String) :
    String :=
  match fuel with
  | 0 => name
  | fuel + 1 =>
    if seen.contains name then disambiguate seen suffix fuel (name ++ suffix)
    else name

/-- One member's converted name in `Container::rename`, before disambiguation.
The struct-field path panics when escaping fails; the panic is the
`Except.error` case. -/
def renameBaseName (isEnum : Bool) (i : Nat) (raw : String) : Except String String :=
  if isEnum then
    let name :=
      if raw == "" then "KopiumEmpty"
      else if raw == "-" then "KopiumDash"
      else if raw == "_" then "KopiumUnderscore"
      else toUpperCamelCase raw
    .ok ((tryEscapeName name).getD ("KopiumVariant" ++ toString i))
  else if raw == "-" then .ok "kopium_dash"
  else if raw == "_" then .ok "kopium_underscore"
  else
    match tryEscapeName (toSnakeCase raw) with
    | some n => .ok n
    | none => .error ("invalid field name " ++ raw ++ " could not be escaped")

/-- The final member once its new name is found: unchanged when the name
already matched, renamed with a serde `rename` annotation otherwise. -/
def renamedMember (m : Member) (newName : String) : Member :=
  if newName != m.name then
    { m with
      serde_annot := m.serde_annot ++ ["rename = \"" ++ m.name ++ "\""],
      name := newName }
  else m

/-- The member loop of `Container::rename`: `seen` accumulates emitted names,
`i` is the enumeration index, and the disambiguation suffix is `X` for enums
and `_x` for structs. -/
def renameGo (isEnum : Bool) (seen : List String) (i : Nat) :
    List Member → Except String (List Member)
  | [] => .ok []
  | m :: rest =>
    match renameBaseName isEnum i m.name with
    | .error e => .error e
    | .ok base =>
      match renameGo isEnum
          (seen ++ [disambiguate seen (if isEnum then "X" else "_x")
            (seen.length + 1) base]) (i + 1) rest with
      | .error e => .error e
      | .ok rest2 =>
        .ok (renamedMember m (disambiguate seen (if isEnum then "X" else "_x")
          (seen.length + 1) base) :: rest2)

/-- `Container::rename` from src/output.rs, with the struct-field panic as an
error. -/
def Container.rename (c : Container) : Except String Container :=
  match renameGo c.is_enum [] 0 c.members with
  | .error e => .error e
  | .ok ms => .ok { c with members := ms }

/-! ## Analyzer scalar helpers (src/analyzer.rs). -/

/-- `extract_date_type` from src/analyzer.rs. -/
def extract_date_type (value : Schema) : Except String String :=
  match value.format with
  | some f =>
    if f == "date" then .ok "NaiveDate"
    else if f == "date-time" then .ok "DateTime<Utc>"
    else .error ("unknown date " ++ f)
  | none => .ok "String"

/-- `extract_number_type` from src/analyzer.rs. -/
def extract_number_type (value : Schema) : Except String String :=
  match value.format with
  | some f =>
    if f == "float" then .ok "f32"
    else if f == "double" then .ok "f64"
    else .ok "f64"
  | none => .ok "f64"

/-- `extract_integer_type` from src/analyzer.rs. -/
def extract_integer_type (value : Schema) : Except String String :=
  match value.format with
  | some f =>
    if f == "int8" then .ok "i8"
    else if f == "int16" then .ok "i16"
    else if f == "int32" then .ok "i32"
    else if f == "int64" then .ok "i64"
    else if f == "int128" then .ok "i128"
    else if f == "uint8" then .ok "u8"
    else if f == "uint16" then .ok "u16"
    else if f == "uint32" then .ok "u32"
    else if f == "uint64" then .ok "u64"
    else if f == "uint128" then .ok "u128"
    else .ok "i64"
  | none => .ok "i64"

/-- `is_conditions` from src/analyzer.rs: the array's element schema has all
five canonical condition properties. -/
def is_conditions (value : Schema) : Bool :=
  match value.items with
  | some (.inl props) =>
    match props.properties with
    | some p =>
      (lookupAssoc p "type").isSome && (lookupAssoc p "status").isSome &&
      (lookupAssoc p "reason").isSome && (lookupAssoc p "message").isSome &&
      (lookupAssoc p "lastTransitionTime").isSome
    | none => false
  | _ => false

/-- `is_object_ref` from src/analyzer.rs: exactly the 7 canonical
ObjectReference properties. -/
def is_object_ref (value : Schema) : Bool :=
  match value.properties with
  | some p =>
    p.length == 7 &&
    (lookupAssoc p "apiVersion").isSome && (lookupAssoc p "fieldPath").isSome &&
    (lookupAssoc p "kind").isSome && (lookupAssoc p "name").isSome &&
    (lookupAssoc p "namespace").isSome && (lookupAssoc p "resourceVersion").isSome &&
    (lookupAssoc p "uid").isSome
  | none => false

/-- `is_object_ref_list` from src/analyzer.rs. -/
def is_object_ref_list (value : Schema) : Bool :=
  match value.items with
  | some (.inl props) => is_object_ref props
  | _ => false

/-! ## Recursive type extraction (src/analyzer.rs `extract_object_type`,
`resolve_additional_properties`, `array_recurse_for_type`). -/

mutual

/-- `extract_object_type` from src/analyzer.rs. -/
def extract_object_type (value : Schema) (stack key : String) (cfg : Config) :
    Except String String :=
  match value with
  | .mk _ _ _ props _ _ _ addProps _ _ _ _ _ _ xpuf _ _ =>
    let dictKeyE : Except String (Option String) :=
      match addProps with
      | some additional => resolve_additional_properties additional stack key cfg
      | none =>
        if props.isNone && (xpuf.getD false) then .ok (some "serde_json::Value")
        else .ok none
    match dictKeyE with
    | .error e => .error e
    | .ok (some dict) => .ok (cfg.map.name ++ "<String, " ++ dict ++ ">")
    | .ok none =>
      if !cfg.no_object_reference && is_object_ref value then .ok "ObjectReference"
      else .ok (stack ++ toUpperCamelCase key)

/-- `resolve_additional_properties` from src/analyzer.rs. -/
def resolve_additional_properties (additional : Schema ⊕ Bool) (stack key : String)
    (cfg : Config) : Except String (Option String) :=
  match additional with
  | .inr _ => .ok none
  | .inl s =>
    let dict_type := s.type_.getD ""
    if dict_type == "string" then .ok (some "String")
    else if dict_type == "array" then
      match array_recurse_for_type s stack key 1 cfg with
      | .error e => .error e
      | .ok (t, _) => .ok (some t)
    else if dict_type == "object" then
      match extract_object_type s stack key cfg with
      | .error e => .error e
      | .ok t => .ok (some t)
    else if dict_type == "" then
      if s.xIntOrString.isSome then .ok (some "IntOrString")
      else if s.xPreserveUnknownFields == some true then .ok (some "serde_json::Value")
      else .error ("unknown empty dict type for " ++ key)
    else if dict_type == "boolean" then .ok (some "bool")
    else if dict_type == "number" then
      match extract_number_type s with
      | .error e => .error e
      | .ok t => .ok (some t)
    else if dict_type == "integer" then
      match extract_integer_type s with
      | .error e => .error e
      | .ok t => .ok (some t)
    else .ok (some (toUpperCamelCase dict_type))

/-- `array_recurse_for_type` from src/analyzer.rs: recurse into an array type
to find its nested type, tracking the recursion depth. -/
def array_recurse_for_type (value : Schema) (stack key : String) (level : Nat)
    (cfg : Config) : Except String (String × Nat) :=
  match value with
  | .mk _ _ _ _ _ items _ _ _ _ _ _ _ _ _ _ _ =>
    match items with
    | some (.inl s) =>
      if s.type_ == none && s.xPreserveUnknownFields == some true then
        .ok ("Vec<serde_json::Value>", level)
      else
        let inner_array_type := s.type_.getD ""
        if inner_array_type == "object" then
          match extract_object_type s stack key cfg with
          | .error e => .error e
          | .ok v => .ok ("Vec<" ++ v ++ ">", level)
        else if inner_array_type == "string" then .ok ("Vec<String>", level)
        else if inner_array_type == "boolean" then .ok ("Vec<bool>", level)
        else if inner_array_type == "date" then
          match extract_date_type value with
          | .error e => .error e
          | .ok t => .ok ("Vec<" ++ t ++ ">", level)
        else if inner_array_type == "number" then
          match extract_number_type value with
          | .error e => .error e
          | .ok t => .ok ("Vec<" ++ t ++ ">", level)
        else if inner_array_type == "integer" then
          match extract_integer_type value with
          | .error e => .error e
          | .ok t => .ok ("Vec<" ++ t ++ ">", level)
        else if inner_array_type == "array" then
          if s.items.isSome then
            match array_recurse_for_type s stack key (level + 1) cfg with
            | .error e => .error e
            | .ok (t, rl) => .ok ("Vec<" ++ t ++ ">", rl)
          else if cfg.relaxed then
            .ok (cfg.map.name ++ "<String, serde_json::Value>", level)
          else .error ("Empty inner array in: " ++ stack ++ " key: " ++ key)
        else if inner_array_type == "" then
          if s.xIntOrString.isSome then .ok ("Vec<IntOrString>", level)
          else .error ("unknown empty array type for " ++ key)
        else .error ("unsupported recursive array type " ++ inner_array_type ++ " for " ++ key)
    | some (.inr _) => .error ("only support single schema in array " ++ key)
    | none => .error "missing items in array type"

end

/-! ## Container extraction (src/analyzer.rs `extract_container`). -/

/-- The `one_of.as_deref().is_some_and(|items| items.iter().all(|item|
item.type_.is_some()))` test of `extract_container`'s empty-type branch. -/
def oneOfAllTyped (value : Schema) : Bool :=
  match value.oneOf with
  | some items => items.all (fun item => item.type_.isSome)
  | none => false

/-- The per-property type resolution of `extract_container` (the body of its
`match value_type` expression), returning the resolved Rust type together with
the updated `array_recurse_level` map. -/
def propRustType (key : String) (value : Schema) (stack : String)
    (arl : List (String × Nat)) (cfg : Config) :
    Except String (String × List (String × Nat)) :=
  let value_type := value.type_.getD ""
  if value_type == "object" then
    match extract_object_type value stack key cfg with
    | .error e => .error e
    | .ok t => .ok (t, arl)
  else if value_type == "string" then
    if value.enum_.isSome then .ok (stack ++ toUpperCamelCase key, arl)
    else .ok ("String", arl)
  else if value_type == "boolean" then .ok ("bool", arl)
  else if value_type == "date" then
    match extract_date_type value with
    | .error e => .error e
    | .ok t => .ok (t, arl)
  else if value_type == "number" then
    match extract_number_type value with
    | .error e => .error e
    | .ok t => .ok (t, arl)
  else if value_type == "integer" then
    match extract_integer_type value with
    | .error e => .error e
    | .ok t => .ok (t, arl)
  else if value_type == "array" then
    match array_recurse_for_type value stack key 1 cfg with
    | .error e => .error e
    | .ok (array_type, recurse_level) =>
      if !cfg.no_condition && key == "conditions" && is_conditions value then
        .ok ("Vec<Condition>", arl)
      else if !cfg.no_object_reference && is_object_ref_list value then
        .ok ("Vec<ObjectReference>", arl)
      else
        .ok (array_type, insertAssoc arl key recurse_level)
  else if value_type == "" then
    if value.xIntOrString.isSome then .ok ("IntOrString", arl)
    else if value.xPreserveUnknownFields == some true || oneOfAllTyped value then
      .ok ("serde_json::Value", arl)
    else if cfg.relaxed then
      .ok (cfg.map.name ++ "<String, serde_json::Value>", arl)
    else .error ("unknown empty dict type for " ++ key)
  else .error ("unknown type " ++ value_type)

/-- One member of `extract_container`: required members keep the bare type,
optional members are wrapped in `Option<...>` and get the default /
skip-serializing serde annotations. -/
def mkExtractedMember (key : String) (value : Schema) (reqs : List String)
    (rust_type : String) : Member :=
  if reqs.contains key then
    { name := key, type_ := rust_type, serde_annot := [], extra_annot := [],
      docs := value.description }
  else
    { name := key, type_ := "Option<" ++ rust_type ++ ">",
      serde_annot := ["default", "skip_serializing_if = \"Option::is_none\""],
      extra_annot := [], docs := value.description }

/-- The property loop of `extract_container`. -/
def extractMembers (props : List (String × Schema)) (stack : String)
    (arl : List (String × Nat)) (reqs : List String) (cfg : Config) :
    Except String (List Member × List (String × Nat)) :=
  match props with
  | [] => .ok ([], arl)
  | (key, value) :: rest =>
    match propRustType key value stack arl cfg with
    | .error e => .error e
    | .ok (rust_type, arl2) =>
      match extractMembers rest stack arl2 reqs cfg with
      | .error e => .error e
      | .ok (ms, arl3) => .ok (mkExtractedMember key value reqs rust_type :: ms, arl3)

/-- `extract_container` from src/analyzer.rs: fully populate a Container with
all its members given the current stack and schema position.  The
`array_recurse_level` map mutated by the source is threaded explicitly. -/
def extract_container (props : List (String × Schema)) (stack : String)
    (arl : List (String × Nat)) (level : Nat) (schema : Schema) (cfg : Config) :
    Except String (Container × List (String × Nat)) :=
  match extractMembers props stack arl (schema.required.getD []) cfg with
  | .error e => .error e
  | .ok (ms, arl2) =>
    .ok ({ name := stack, members := ms, level := level,
           docs := schema.description, is_enum := false }, arl2)

/-! ## Enum container extraction (src/analyzer.rs `analyze_enum_properties`). -/

/-- The name of one enum literal: strings are kept; numbers must satisfy
`is_u64` (non-negative integers) and are rendered with `to_string`; everything
else is rejected. -/
def enumLiteralName (en : JValue) : Except String String :=
  match en with
  | .str name => .ok name
  | .num (.uint v) => .ok (toString v)
  | .num _ => .error "enum member cannot have signed/floating discriminants"
  | _ => .error "not handling non-string/int enum outside oneOf block"

/-- The literal loop of `analyze_enum_properties`. -/
def enumMembers : List JValue → Except String (List Member)
  | [] => .ok []
  | en :: rest =>
    match enumLiteralName en with
    | .error e => .error e
    | .ok name =>
      match enumMembers rest with
      | .error e => .error e
      | .ok ms =>
        .ok ({ name := name, type_ := "", serde_annot := [], extra_annot := [],
               docs := none } :: ms)

/-- `analyze_enum_properties` from src/analyzer.rs. -/
def analyze_enum_properties (items : List JValue) (stack : String) (level : Nat)
    (schema : Schema) : Except String Container :=
  match enumMembers items with
  | .error e => .error e
  | .ok members =>
    .ok { name := stack, members := members, level := level,
          docs := schema.description, is_enum := true }

/-! ## The recursive descent (src/analyzer.rs `analyze_` and
`find_containers`).

The source threads a mutable `Output` accumulator through the recursion and
performs deduplicated inserts into it; since an insert is skipped exactly when
the name is already present, building each recursive contribution locally and
merging with `outputExtend` yields the same catalog, which is how the model is
written.  `IGNORED_KEYS` is the constant from src/analyzer.rs. -/

def IGNORED_KEYS : List String := ["metadata", "apiVersion", "kind"]

/-- The array-unwrapping loop at the start of `find_containers`'s `"array"`
branch: take `items` `n` times, failing exactly like the source. -/
def unwrapArraySchema (s : Schema) (n : Nat) : Except String Schema :=
  match n with
  | 0 => .ok s
  | k + 1 =>
    match s.items with
    | some (.inl inner) => unwrapArraySchema inner k
    | some (.inr _) => .error "only handling single type in arrays"
    | none => .error "could not recurse into vec"

theorem sizeOf_lookup_items {s inner : Schema}
    (h : s.items = some (.inl inner)) : sizeOf inner < sizeOf s := by
  cases s with
  | mk t f d p r i ai ap e o al an n x1 x2 x3 x4 =>
    simp [Schema.items] at h
    subst h
    simp
    omega

theorem sizeOf_lookup_additional {s inner : Schema}
    (h : s.additionalProperties = some (.inl inner)) : sizeOf inner < sizeOf s := by
  cases s with
  | mk t f d p r i ai ap e o al an n x1 x2 x3 x4 =>
    simp [Schema.additionalProperties] at h
    subst h
    simp
    omega

theorem sizeOf_properties_getD (s : Schema) :
    sizeOf (s.properties.getD []) < sizeOf s := by
  cases s with
  | mk t f d p r i ai ap e o al an n x1 x2 x3 x4 =>
    cases p with
    | none => simp [Schema.properties]; omega
    | some ps => simp [Schema.properties]; omega

theorem unwrapArraySchema_sizeOf {s s2 : Schema} {n : Nat}
    (h : unwrapArraySchema s n = .ok s2) : sizeOf s2 ≤ sizeOf s := by
  induction n generalizing s with
  | zero =>
    simp [unwrapArraySchema] at h
    subst h
    exact le_refl _
  | succ k ih =>
    unfold unwrapArraySchema at h
    cases hi : s.items with
    | none => simp [hi] at h
    | some v =>
      cases v with
      | inl inner =>
        simp [hi] at h
        exact le_trans (ih h) (le_of_lt (sizeOf_lookup_items hi))
      | inr _ => simp [hi] at h

mutual

/-- `analyze_` from src/analyzer.rs: scan a schema for structs and members and
recurse to find all structs.  Returns the list of containers the source
inserts into the shared accumulator for this subtree. -/
def analyze_ (schema : Schema) (current stack : String) (level : Nat)
    (cfg : Config) : Except String (List Container) :=
  let props := schema.properties.getD []
  let camelStack := toUpperCamelCase stack
  -- the container-creation phase; `none` models the two early `return Ok(())`
  -- exits of the source, which skip the find_containers phase entirely
  let phase1 : Except String (Option (List Container × List (String × Nat))) :=
    if schema.type_.getD "" == "object" then
      match h : schema.additionalProperties with
      | some (.inl s) =>
        match s.properties with
        | some extra_props =>
          match extract_container extra_props camelStack [] level schema cfg with
          | .error e => .error e
          | .ok (c, arl2) => .ok (some (outputInsert [] c, arl2))
        | none =>
          if s.type_.getD "" == "object" then
            match analyze_ s current camelStack level cfg with
            | .error e => .error e
            | .ok sub => .ok (some (outputExtend [] sub, []))
          else if s.type_.getD "" != "" then
            .ok none -- inlined map: return Ok(())
          else .ok (some ([], []))
      | some (.inr _) =>
        if props.isEmpty && schema.xPreserveUnknownFields.getD false then
          .ok none -- preserve-unknown-fields object: return Ok(())
        else
          match extract_container props camelStack [] level schema cfg with
          | .error e => .error e
          | .ok (c, arl2) => .ok (some (outputInsert [] c, arl2))
      | none =>
        if props.isEmpty && schema.xPreserveUnknownFields.getD false then
          .ok none -- preserve-unknown-fields object: return Ok(())
        else
          match extract_container props camelStack [] level schema cfg with
          | .error e => .error e
          | .ok (c, arl2) => .ok (some (outputInsert [] c, arl2))
    else .ok (some ([], []))
  match phase1 with
  | .error e => .error e
  | .ok none => .ok []
  | .ok (some (res1, arl1)) =>
    let extrasE : Except String (List Container) :=
      match h5 : schema.additionalProperties with
      | some (.inl s) =>
        find_containers (s.properties.getD []) camelStack arl1 level schema cfg
      | _ => find_containers props camelStack arl1 level schema cfg
    match extrasE with
    | .error e => .error e
    | .ok extras => .ok (outputExtend res1 extras)
termination_by 2 * sizeOf schema + 1
decreasing_by
  all_goals simp_wf
  all_goals
    first
      | (have hx := sizeOf_lookup_additional h; omega)
      | (have hx := sizeOf_lookup_additional h5
         have hy := sizeOf_properties_getD s
         omega)
      | (have hx := sizeOf_properties_getD schema; omega)

/-- `find_containers` from src/analyzer.rs: dive into the passed properties,
recursively invoking the analyzer for any new type that needs investigation. -/
def find_containers (props : List (String × Schema)) (stack : String)
    (arl : List (String × Nat)) (level : Nat) (schema : Schema) (cfg : Config) :
    Except String (List Container) :=
  match props with
  | [] => .ok []
  | (key, value) :: rest =>
    if level == 0 && IGNORED_KEYS.contains key then
      find_containers rest stack arl level schema cfg
    else
      let next_key := toUpperCamelCase key
      let next_stack := stack ++ next_key
      let contributionE : Except String (List Container) :=
        match value.type_.getD "" with
        | "object" =>
          -- special case: additionalProperties wrapping an array is unpacked
          match h1 : value.additionalProperties with
          | some (.inl s) =>
            if s.type_.getD "" == "array" then
              match h2 : s.items with
              | some (.inl itemsS) =>
                analyze_ itemsS next_key next_stack (level + 1) cfg
              | _ => analyze_ value next_key next_stack (level + 1) cfg
            else analyze_ value next_key next_stack (level + 1) cfg
          | _ => analyze_ value next_key next_stack (level + 1) cfg
        | "array" =>
          match lookupAssoc arl key with
          | some recurse =>
            match h3 : unwrapArraySchema value recurse with
            | .error e => .error e
            | .ok inner => analyze_ inner next_key next_stack (level + 1) cfg
          | none => .ok []
        | "" => .ok []
        | _ =>
          match value.enum_ with
          | some en =>
            match analyze_enum_properties en next_stack level schema with
            | .error e => .error e
            | .ok c => .ok (outputInsert [] c)
          | none => .ok []
      match contributionE with
      | .error e => .error e
      | .ok contribution =>
        match find_containers rest stack arl level schema cfg with
        | .error e => .error e
        | .ok restRes => .ok (outputExtend contribution restRes)
termination_by 2 * sizeOf props
decreasing_by
  all_goals simp_wf
  all_goals
    first
      | (have hx := sizeOf_lookup_additional h1
         have hy := sizeOf_lookup_items h2
         omega)
      | (have hx := unwrapArraySchema_sizeOf h3; omega)
      | omega

end

/-- `analyze` from src/analyzer.rs: the entry point. -/
def analyze (schema : Schema) (kind : String) (cfg : Config) :
    Except String (List Container) :=
  analyze_ schema "" kind 0 cfg

/-! ## SchemaEq (src/overrides.rs): refined equality for schema matching.

The generic `impl SchemaEq for Option<T> / Vec<T> / BTreeMap<String, V>` of
the source are modelled as combinators over an element comparison `f`; the
concrete instances for `JSONSchemaProps`, `JSONSchemaPropsOrArray`,
`JSONSchemaPropsOrBool` and `serde_json::Value` are the mutual recursions
below, which agree with the combinators field by field (see the agreement
lemmas). -/

/-- `SchemaEq::is_subset` for `Option<T>`, over an element test `f`. -/
def optIsSubset {α : Type} (f : α → α → Bool) : Option α → Option α → Bool
  | some x, some y => f x y
  | some _, none => false
  | none, some _ => true
  | none, none => true

/-- `SchemaEq::is_exhaustive` for `Option<T>`, over an element test `f`. -/
def optIsExhaustive {α : Type} (f : α → α → Bool) : Option α → Option α → Bool
  | some x, some y => f x y
  | some _, none => false
  | none, some _ => false
  | none, none => true

/-- `SchemaEq::is_subset` for `Vec<T>`, over an element test `f`: not longer
than the candidate, and every element subset-matches some candidate element. -/
def vecIsSubset {α : Type} (f : α → α → Bool) (xs ys : List α) : Bool :=
  if ys.length < xs.length then false
  else xs.all (fun x => ys.any (fun y => f x y))

/-- `SchemaEq::is_exhaustive` for `Vec<T>`: equal lengths and positional
element matches. -/
def vecIsExhaustive {α : Type} (f : α → α → Bool) (xs ys : List α) : Bool :=
  xs.length == ys.length && (xs.zip ys).all (fun p => f p.1 p.2)

/-- `SchemaEq::is_subset` for `BTreeMap<String, V>`: not longer than the
candidate, and every key present in the candidate with a subset-compatible
value. -/
def mapIsSubset {β : Type} (f : β → β → Bool) (xs ys : List (String × β)) : Bool :=
  if ys.length < xs.length then false
  else xs.all (fun kv => ((lookupAssoc ys kv.1).map (f kv.2)).getD false)

/-- `SchemaEq::is_exhaustive` for `BTreeMap<String, V>`: equal lengths and
equal keys with exhaustive values, in iteration (key) order. -/
def mapIsExhaustive {β : Type} (f : β → β → Bool) (xs ys : List (String × β)) :
    Bool :=
  xs.length == ys.length && (xs.zip ys).all (fun p => p.1.1 == p.2.1 && f p.1.2 p.2.2)

/-! `SchemaEq::is_exhaustive` for `serde_json::Value` is plain equality;
this is the structural equality of the model. -/
mutual
def jvalueBEq : JValue → JValue → Bool
  | .null, .null => true
  | .bool x, .bool y => x == y
  | .num x, .num y => x == y
  | .str x, .str y => x == y
  | .arr xs, .arr ys => jvalueListBEq xs ys
  | .obj xs, .obj ys => jvalueMapBEq xs ys
  | _, _ => false
def jvalueListBEq : List JValue → List JValue → Bool
  | [], [] => true
  | x :: xs, y :: ys => jvalueBEq x y && jvalueListBEq xs ys
  | _, _ => false
def jvalueMapBEq : List (String × JValue) → List (String × JValue) → Bool
  | [], [] => true
  | (k1, v1) :: xs, (k2, v2) :: ys => k1 == k2 && jvalueBEq v1 v2 && jvalueMapBEq xs ys
  | _, _ => false
end

/-! `SchemaEq::is_subset` for `serde_json::Value`: maps and arrays recurse
with the corresponding collection semantics, `Null` subsets anything,
scalars compare for equality. -/
mutual
def jvalueIsSubset : JValue → JValue → Bool
  | .obj xs, .obj ys =>
    if ys.length < xs.length then false else jvalueMapSubsetAll xs ys
  | .arr xs, .arr ys =>
    if ys.length < xs.length then false else jvalueListSubsetAll xs ys
  | .str x, .str y => x == y
  | .num x, .num y => x == y
  | .bool x, .bool y => x == y
  | .null, _ => true
  | _, _ => false
def jvalueMapSubsetAll : List (String × JValue) → List (String × JValue) → Bool
  | [], _ => true
  | (k, x) :: xs, ys =>
    ((lookupAssoc ys k).map (jvalueIsSubset x)).getD false && jvalueMapSubsetAll xs ys
def jvalueListSubsetAll : List JValue → List JValue → Bool
  | [], _ => true
  | x :: xs, ys => ys.any (fun y => jvalueIsSubset x y) && jvalueListSubsetAll xs ys
end

/-- JSON exhaustive comparison for `Vec<JSON>` fields (positional). -/
def jvalueListIsExhaustive (xs ys : List JValue) : Bool :=
  xs.length == ys.length && (xs.zip ys).all (fun p => jvalueBEq p.1 p.2)

/-- JSON subset comparison for `Vec<JSON>` fields. -/
def jvalueListIsSubset (xs ys : List JValue) : Bool :=
  if ys.length < xs.length then false
  else xs.all (fun x => ys.any (fun y => jvalueIsSubset x y))

/-- `Option` comparison specialised to primitive equality (`String`, `Bool`),
shared by the subset and exhaustive sides below where the element test is
symmetric equality. -/
def optEqSubset {α : Type} [BEq α] : Option α → Option α → Bool
  | some x, some y => x == y
  | some _, none => false
  | none, _ => true

def optEqExhaustive {α : Type} [BEq α] : Option α → Option α → Bool
  | some x, some y => x == y
  | none, none => true
  | _, _ => false

/-- String-vector subset (for the `required` field). -/
def strVecIsSubset (xs ys : List String) : Bool :=
  if ys.length < xs.length then false
  else xs.all (fun x => ys.any (fun y => x == y))

/-- String-vector exhaustive comparison (for the `required` field). -/
def strVecIsExhaustive (xs ys : List String) : Bool :=
  xs.length == ys.length && (xs.zip ys).all (fun p => p.1 == p.2)

/-- `Option<Vec<JSON>>` subset (for the `enum` field). -/
def enumOptIsSubset : Option (List JValue) → Option (List JValue) → Bool
  | some xs, some ys => jvalueListIsSubset xs ys
  | some _, none => false
  | none, _ => true

/-- `Option<Vec<String>>` subset (for the `required` field). -/
def reqOptIsSubset : Option (List String) → Option (List String) → Bool
  | some xs, some ys => strVecIsSubset xs ys
  | some _, none => false
  | none, _ => true

/-! `SchemaEq::is_subset` for `JSONSchemaProps` and its nested shapes: the
compared fields are exactly those of the `subset!` macro invocation in
src/overrides.rs (`type_`, `enum_`, `items`, `additional_items`,
`properties`, `additional_properties`, `required`, `one_of`, `all_of`,
`any_of`, `not`, and the four `x_kubernetes` extensions). -/
mutual
def schemaIsSubset : Schema → Schema → Bool
  | .mk t1 _ _ p1 r1 i1 ai1 ap1 e1 o1 al1 an1 n1 x1 y1 l1 m1,
    .mk t2 _ _ p2 r2 i2 ai2 ap2 e2 o2 al2 an2 n2 x2 y2 l2 m2 =>
    optEqSubset t1 t2 &&
    enumOptIsSubset e1 e2 &&
    orArrayOptIsSubset i1 i2 &&
    orArrayOptIsSubset ai1 ai2 &&
    propsOptIsSubset p1 p2 &&
    apOptIsSubset ap1 ap2 &&
    reqOptIsSubset r1 r2 &&
    schemaListOptIsSubset o1 o2 &&
    schemaListOptIsSubset al1 al2 &&
    schemaListOptIsSubset an1 an2 &&
    notOptIsSubset n1 n2 &&
    optEqSubset x1 x2 &&
    optEqSubset y1 y2 &&
    optEqSubset l1 l2 &&
    optEqSubset m1 m2
def propsOptIsSubset :
    Option (List (String × Schema)) → Option (List (String × Schema)) → Bool
  | some xs, some ys =>
    if ys.length < xs.length then false else schemaMapSubsetAll xs ys
  | some _, none => false
  | none, _ => true
def apOptIsSubset : Option (Schema ⊕ Bool) → Option (Schema ⊕ Bool) → Bool
  | some b1, some b2 => orBoolIsSubset b1 b2
  | some _, none => false
  | none, _ => true
def notOptIsSubset : Option Schema → Option Schema → Bool
  | some x, some y => schemaIsSubset x y
  | some _, none => false
  | none, _ => true
def orArrayOptIsSubset :
    Option (Schema ⊕ List Schema) → Option (Schema ⊕ List Schema) → Bool
  | some v1, some v2 =>
    (match v1, v2 with
     | .inr xs, .inr ys =>
       if ys.length < xs.length then false else schemaListSubsetAll xs ys
     | .inr xs, .inl y => schemaListAllSubsetOf xs y
     | .inl x, .inr ys => ys.any (fun y => schemaIsSubset x y)
     | .inl x, .inl y => schemaIsSubset x y)
  | some _, none => false
  | none, _ => true
def orBoolIsSubset : Schema ⊕ Bool → Schema ⊕ Bool → Bool
  | .inl x, .inl y => schemaIsSubset x y
  | .inl _, .inr _ => false
  | .inr x, .inr y => x == y
  | .inr _, .inl _ => false
def schemaListOptIsSubset : Option (List Schema) → Option (List Schema) → Bool
  | some xs, some ys =>
    if ys.length < xs.length then false else schemaListSubsetAll xs ys
  | some _, none => false
  | none, _ => true
def schemaListSubsetAll : List Schema → List Schema → Bool
  | [], _ => true
  | x :: xs, ys => ys.any (fun y => schemaIsSubset x y) && schemaListSubsetAll xs ys
def schemaListAllSubsetOf : List Schema → Schema → Bool
  | [], _ => true
  | x :: xs, y => schemaIsSubset x y && schemaListAllSubsetOf xs y
def schemaMapSubsetAll : List (String × Schema) → List (String × Schema) → Bool
  | [], _ => true
  | (k, x) :: xs, ys =>
    ((lookupAssoc ys k).map (schemaIsSubset x)).getD false && schemaMapSubsetAll xs ys
end

/-! `SchemaEq::is_exhaustive` for `JSONSchemaProps` and its nested shapes,
over the same compared-field set. -/
mutual
def schemaIsExhaustive : Schema → Schema → Bool
  | .mk t1 _ _ p1 r1 i1 ai1 ap1 e1 o1 al1 an1 n1 x1 y1 l1 m1,
    .mk t2 _ _ p2 r2 i2 ai2 ap2 e2 o2 al2 an2 n2 x2 y2 l2 m2 =>
    optEqExhaustive t1 t2 &&
    (match e1, e2 with
     | some xs, some ys => jvalueListIsExhaustive xs ys
     | none, none => true
     | _, _ => false) &&
    orArrayOptIsExhaustive i1 i2 &&
    orArrayOptIsExhaustive ai1 ai2 &&
    (match p1, p2 with
     | some xs, some ys => schemaMapExhaustiveAll xs ys
     | none, none => true
     | _, _ => false) &&
    (match ap1, ap2 with
     | some b1, some b2 => orBoolIsExhaustive b1 b2
     | none, none => true
     | _, _ => false) &&
    (match r1, r2 with
     | some xs, some ys => strVecIsExhaustive xs ys
     | none, none => true
     | _, _ => false) &&
    schemaListOptIsExhaustive o1 o2 &&
    schemaListOptIsExhaustive al1 al2 &&
    schemaListOptIsExhaustive an1 an2 &&
    (match n1, n2 with
     | some x, some y => schemaIsExhaustive x y
     | none, none => true
     | _, _ => false) &&
    optEqExhaustive x1 x2 &&
    optEqExhaustive y1 y2 &&
    optEqExhaustive l1 l2 &&
    optEqExhaustive m1 m2
def orArrayOptIsExhaustive :
    Option (Schema ⊕ List Schema) → Option (Schema ⊕ List Schema) → Bool
  | some v1, some v2 =>
    (match v1, v2 with
     | .inr xs, .inr ys => schemaListExhaustiveAll xs ys
     | .inr _, .inl _ => false
     | .inl _, .inr _ => false
     | .inl x, .inl y => schemaIsExhaustive x y)
  | none, none => true
  | _, _ => false
def orBoolIsExhaustive : Schema ⊕ Bool → Schema ⊕ Bool → Bool
  | .inl x, .inl y => schemaIsExhaustive x y
  | .inl _, .inr _ => false
  | .inr x, .inr y => x == y
  | .inr _, .inl _ => false
def schemaListOptIsExhaustive : Option (List Schema) → Option (List Schema) → Bool
  | some xs, some ys => schemaListExhaustiveAll xs ys
  | none, none => true
  | _, _ => false
def schemaListExhaustiveAll : List Schema → List Schema → Bool
  | [], [] => true
  | x :: xs, y :: ys => schemaIsExhaustive x y && schemaListExhaustiveAll xs ys
  | _, _ => false
def schemaMapExhaustiveAll : List (String × Schema) → List (String × Schema) → Bool
  | [], [] => true
  | (k1, x) :: xs, (k2, y) :: ys =>
    k1 == k2 && schemaIsExhaustive x y && schemaMapExhaustiveAll xs ys
  | _, _ => false
end

/-! ## The Overrides engine (src/overrides.rs). -/

/-- `PropertyAction` from src/overrides.rs. -/
inductive PropertyAction where
  | Replace (type_ : String)
  | Omit
deriving DecidableEq

/-- `PropertyName` from src/overrides.rs. -/
inductive PropertyName where
  | Exact (s : String)
  | Regex (s : String)
deriving DecidableEq

/-- `PropertySchema` from src/overrides.rs. -/
inductive PropertySchema where
  | Exhaustive (s : Schema)
  | Subset (s : Schema)

/-- `PartialEq<JSONSchemaProps> for PropertySchema` from src/overrides.rs. -/
def PropertySchema.matches : PropertySchema → Schema → Bool
  | .Exhaustive x, other => schemaIsExhaustive x other
  | .Subset x, other => schemaIsSubset x other

/-- `PropertyRegexSet` (a compiled `regex::RegexSet`): the pattern list plus
the compiled matcher.  The matcher function abstracts the external regex
engine; `is_empty` is the emptiness of the pattern list, as in `RegexSet`. -/
structure PropertyRegexSet where
  patterns : List String
  matchFn : String → Bool

/-- The external regex engine, abstracted: compiling one pattern either
fails with a `regex::Error` (rendered as a string) or yields a matcher. -/
structure RegexEngine where
  compileOne : String → Except String (String → Bool)

/-- `RegexSet::new`: compile every pattern; the first failing pattern's error
is returned (the constructor produces a single `regex::Error`), otherwise the
set matches when any pattern matches. -/
def regexSetNew (eng : RegexEngine) (patterns : List String) :
    Except String PropertyRegexSet :=
  match patterns.mapM eng.compileOne with
  | .error e => .error e
  | .ok fns => .ok { patterns := patterns, matchFn := fun s => fns.any (fun f => f s) }

/-- The uncompiled `PropertyRule` (`PropertyRule<PropertyNameSet>`); the
source's `HashSet` of name matchers is modelled as a list in a fixed
iteration order. -/
structure PropertyRule0 where
  match_name : List PropertyName
  match_schema : Option PropertySchema
  match_success : PropertyAction

/-- `CompiledPropertyRule = PropertyRule<PropertyRegexSet>`. -/
structure CompiledPropertyRule where
  match_name : PropertyRegexSet
  match_schema : Option PropertySchema
  match_success : PropertyAction

/-- `PropertyRule::compile` from src/overrides.rs: split exact matches out
(deduplicated, as the source collects them in a `HashSet`), compile the
regex matchers into a set, and return both.  At most one `regex::Error`
can be produced per rule — the result type allows no more. -/
def PropertyRule0.compile (r : PropertyRule0) (eng : RegexEngine) :
    Except String (CompiledPropertyRule × List String) :=
  let exacts := (r.match_name.filterMap (fun n =>
    match n with
    | .Exact e => some e
    | .Regex _ => none)).eraseDups
  let regexPats := r.match_name.filterMap (fun n =>
    match n with
    | .Regex p => some p
    | .Exact _ => none)
  match regexSetNew eng regexPats with
  | .error e => .error e
  | .ok set =>
    .ok ({ match_name := set, match_schema := r.match_schema,
           match_success := r.match_success }, exacts)

/-- `CompiledPropertyRule::is_match` from src/overrides.rs. -/
def CompiledPropertyRule.is_match (r : CompiledPropertyRule) (name : String)
    (schema : Schema) : Bool :=
  if !r.match_name.patterns.isEmpty && !r.match_name.matchFn name then false
  else
    match r.match_schema with
    | some ms => ms.matches schema
    | none => true

/-- `Overrides` from src/overrides.rs: the exact-name index plus the ordered
linear-scan rule list.  The `HashMap` index is an association list; only the
per-bucket order is observable. -/
structure Overrides where
  property_index : List (String × List CompiledPropertyRule)
  property_rules : List CompiledPropertyRule

/-- Append a compiled rule to the index bucket of `name` (the source's
`entry(name).and_modify(push).or_insert(vec![rule])`). -/
def indexAdd (idx : List (String × List CompiledPropertyRule)) (name : String)
    (rule : CompiledPropertyRule) : List (String × List CompiledPropertyRule) :=
  match idx with
  | [] => [(name, [rule])]
  | (k, rs) :: rest =>
    if k == name then (k, rs ++ [rule]) :: rest
    else (k, rs) :: indexAdd rest name rule

/-- The per-rule loop of `Overrides::new`: every rule is compiled (the loop
never aborts early); failures accumulate in `errors`, successes are indexed
under each exact name and appended to the linear list unless they are
exact-only. -/
def overridesNewGo (eng : RegexEngine) (errors : List String)
    (idx : List (String × List CompiledPropertyRule))
    (linear : List CompiledPropertyRule) :
    List PropertyRule0 →
      List String × List (String × List CompiledPropertyRule) ×
        List CompiledPropertyRule
  | [] => (errors, idx, linear)
  | r :: rest =>
    match r.compile eng with
    | .error e => overridesNewGo eng (errors ++ [e]) idx linear rest
    | .ok (cr, exacts) =>
      let idx2 := exacts.foldl (fun i n => indexAdd i n cr) idx
      let linear2 :=
        if !exacts.isEmpty && cr.match_name.patterns.isEmpty then linear
        else linear ++ [cr]
      overridesNewGo eng errors idx2 linear2 rest

/-- `Overrides::new` from src/overrides.rs: compile all rules, returning the
collected list of regex errors when any rule failed. -/
def overridesNew (eng : RegexEngine) (rules : List PropertyRule0) :
    Except (List String) Overrides :=
  match overridesNewGo eng [] [] [] rules with
  | (errors, idx, linear) =>
    if errors.isEmpty then .ok { property_index := idx, property_rules := linear }
    else .error errors

/-- `Overrides::get_property_rule` from src/overrides.rs: exact-index
candidates first, then the sequential scan. -/
def Overrides.get_property_rule (o : Overrides) (name : String) (schema : Schema) :
    Option CompiledPropertyRule :=
  let indexHit :=
    match lookupAssoc o.property_index name with
    | some rules => rules.find? (fun r => r.is_match name schema)
    | none => none
  match indexHit with
  | some r => some r
  | none => o.property_rules.find? (fun r => r.is_match name schema)

/-- `Overrides::get_property_action` from src/overrides.rs. -/
def Overrides.get_property_action (o : Overrides) (name : String)
    (schema : Schema) : Option PropertyAction :=
  (o.get_property_rule name schema).map (fun r => r.match_success)

/-! ## Concrete schema builders for witnesses and counterexamples. -/

/-- A schema with only a `type`. -/
def typedS (t : String) : Schema :=
  .mk (some t) none none none none none none none none none none none none none none none none

/-- An object schema with `properties` and a `required` list. -/
def objS (props : List (String × Schema)) (req : Option (List String)) : Schema :=
  .mk (some "object") none none (some props) req none none none none none none none none none none none none

/-- An array schema with a single `items` schema. -/
def arrayS (item : Schema) : Schema :=
  .mk (some "array") none none none none (some (.inl item)) none none none none none none none none none none none

/-- A string schema carrying an `enum` literal list. -/
def strEnumS (lits : List JValue) : Schema :=
  .mk (some "string") none none none none none none none (some lits) none none none none none none none none

/-- A typed scalar schema carrying an `enum` literal list. -/
def typedEnumS (t : String) (lits : List JValue) : Schema :=
  .mk (some t) none none none none none none none (some lits) none none none none none none none none

/-- An untyped schema with only a `oneOf` list. -/
def oneOfS (l : List Schema) : Schema :=
  .mk none none none none none none none none none (some l) none none none none none none none

/-- A member with no annotations, as built for tests. -/
def plainMember (n t : String) : Member :=
  { name := n, type_ := t, serde_annot := [], extra_annot := [], docs := none }

/-- A member carrying the serde annotations of a non-required property. -/
def optAnnotMember (n t : String) : Member :=
  { name := n, type_ := t,
    serde_annot := ["default", "skip_serializing_if = \"Option::is_none\""],
    extra_annot := [], docs := none }

/-- Whether an `Except` computation failed (Rust `Result::is_err`). -/
def isError {ε α : Type} : Except ε α → Bool
  | .error _ => true
  | .ok _ => false

/-- Whether an `Except` computation succeeded (Rust `Result::is_ok`). -/
def isOkE {ε α : Type} : Except ε α → Bool
  | .error _ => false
  | .ok _ => true

/-! ## C3: catalog insert is idempotent on names. -/

/-- C3: inserting a Container whose name already exists in the catalog is a
no-op: the catalog is returned unchanged (so its length and all existing
entries are unchanged, the first-inserted definition for a name wins, and
later same-named containers are silently absorbed). -/
theorem c3_output_insert_noop_on_existing_name (o : Output) (c : Container)
    (h : ∃ x ∈ o, x.name = c.name) : outputInsert o c = o := by
  unfold outputInsert
  rw [if_pos]
  apply List.any_eq_true.mpr
  obtain ⟨x, hx, he⟩ := h
  exact ⟨x, hx, by simp [he]⟩

/-- C3 witness: a same-named container with different content is absorbed. -/
theorem c3_output_insert_noop_on_existing_name_witness :
    outputInsert [{ name := "AgentValidationsInfo", level := 1 }]
        { name := "AgentValidationsInfo", level := 2,
          members := [plainMember "id" "String"] } =
      [{ name := "AgentValidationsInfo", level := 1 }] :=
  c3_output_insert_noop_on_existing_name _ _
    ⟨{ name := "AgentValidationsInfo", level := 1 }, by simp, rfl⟩

/-! ## C7: rename collision disambiguation. -/

/-- C7: the rename pass resolves within-container identifier collisions by
repeatedly appending the disambiguation suffix in first-seen member order:
the raw names `jwks_uri`, `jwks-uri`, `jwksUri`, `JwksUri` (in that order)
become `JwksUri`, `JwksUriX`, `JwksUriXX`, `JwksUriXXX` as enum variants and
`jwks_uri`, `jwks_uri_x`, `jwks_uri_x_x`, `jwks_uri_x_x_x` as struct fields;
whenever the final name differs from the raw wire name, a serde rename
annotation recording the original is added (and only then). -/
theorem c7_rename_collision_resolution :
    Container.rename
        { name := "EndpointRelabelingsAction", level := 1, is_enum := true,
          members := [plainMember "jwks_uri" "", plainMember "jwks-uri" "",
            plainMember "jwksUri" "", plainMember "JwksUri" ""] } =
      .ok { name := "EndpointRelabelingsAction", level := 1, is_enum := true,
            members := [
              { name := "JwksUri", type_ := "",
                serde_annot := ["rename = \"jwks_uri\""], extra_annot := [],
                docs := none },
              { name := "JwksUriX", type_ := "",
                serde_annot := ["rename = \"jwks-uri\""], extra_annot := [],
                docs := none },
              { name := "JwksUriXX", type_ := "",
                serde_annot := ["rename = \"jwksUri\""], extra_annot := [],
                docs := none },
              { name := "JwksUriXXX", type_ := "",
                serde_annot := ["rename = \"JwksUri\""], extra_annot := [],
                docs := none }] } ∧
    Container.rename
        { name := "FakeStruct", level := 1, is_enum := false,
          members := [plainMember "jwks_uri" "u32", plainMember "jwks-uri" "u32",
            plainMember "jwksUri" "u32", plainMember "JwksUri" "u32"] } =
      .ok { name := "FakeStruct", level := 1, is_enum := false,
            members := [
              { name := "jwks_uri", type_ := "u32", serde_annot := [],
                extra_annot := [], docs := none },
              { name := "jwks_uri_x", type_ := "u32",
                serde_annot := ["rename = \"jwks-uri\""], extra_annot := [],
                docs := none },
              { name := "jwks_uri_x_x", type_ := "u32",
                serde_annot := ["rename = \"jwksUri\""], extra_annot := [],
                docs := none },
              { name := "jwks_uri_x_x_x", type_ := "u32",
                serde_annot := ["rename = \"JwksUri\""], extra_annot := [],
                docs := none }] } := by
  exact ⟨rfl, rfl⟩

/-! ## C10: the rename pass is partial for struct fields, total for enums. -/

theorem renameBaseName_enum_ok (i : Nat) (raw : String) :
    ∃ b, renameBaseName true i raw = .ok b :=
  ⟨_, rfl⟩

theorem renameGo_enum_ne_error (ms : List Member) : ∀ (seen : List String)
    (i : Nat) (e : String), renameGo true seen i ms ≠ .error e := by
  induction ms with
  | nil => intro seen i e h; simp [renameGo] at h
  | cons m rest ih =>
    intro seen i e h
    unfold renameGo at h
    obtain ⟨b, hb⟩ := renameBaseName_enum_ok i m.name
    rw [hb] at h
    simp only at h
    split at h
    · rename_i e2 heq
      exact ih _ _ _ heq
    · exact Except.noConfusion h

theorem renameGo_struct_err (ms : List Member) : ∀ (seen : List String) (i : Nat),
    (∃ m ∈ ms, m.name ≠ "-" ∧ m.name ≠ "_" ∧
      tryEscapeName (toSnakeCase m.name) = none) →
    ∃ e, renameGo false seen i ms = .error e := by
  induction ms with
  | nil => intro seen i h; simp at h
  | cons m rest ih =>
    intro seen i h
    obtain ⟨m0, hm0, hd, hu, he⟩ := h
    rcases List.mem_cons.mp hm0 with hh | ht
    · subst hh
      have hbn : renameBaseName false i m0.name =
          .error ("invalid field name " ++ m0.name ++ " could not be escaped") := by
        unfold renameBaseName
        rw [if_neg (by simp), if_neg (by simp [hd]), if_neg (by simp [hu]), he]
      exact ⟨_, by unfold renameGo; rw [hbn]⟩
    · cases hb : renameBaseName false i m.name with
      | error e => exact ⟨e, by unfold renameGo; rw [hb]⟩
      | ok base =>
        obtain ⟨e2, he2⟩ := ih (seen ++ [disambiguate seen
          (if false then "X" else "_x") (seen.length + 1) base]) (i + 1)
          ⟨m0, ht, hd, hu, he⟩
        refine ⟨e2, ?_⟩
        unfold renameGo
        rw [hb]
        simp only
        rw [he2]

/-- C10: in the rename pass of a non-enum (struct) Container, a member whose
snake_cased name cannot be escaped into a legal identifier (neither the name
itself, nor its `r#` form, nor its `r#_` form parses) makes the rename
operation panic (modelled as an error); the positional `KopiumVariant{i}`
fallback exists only for enum variants, whose rename always succeeds — so for
struct fields the rename pass is a partial function rather than total. -/
theorem c10_rename_struct_partial_enum_total :
    (∀ (c : Container), c.is_enum = false →
      (∃ m ∈ c.members, m.name ≠ "-" ∧ m.name ≠ "_" ∧
        tryEscapeName (toSnakeCase m.name) = none) →
      isError (c.rename) = true) ∧
    (∀ (c : Container), c.is_enum = true → isOkE (c.rename) = true) := by
  constructor
  · intro c hse h
    unfold Container.rename
    rw [hse]
    obtain ⟨e, he⟩ := renameGo_struct_err c.members [] 0 h
    rw [he]
    rfl
  · intro c hse
    unfold Container.rename
    rw [hse]
    cases hg : renameGo true [] 0 c.members with
    | error e => exact absurd hg (renameGo_enum_ne_error c.members [] 0 e)
    | ok ms => rfl

/-- The struct container of the C10 witness. -/
def c10Struct : Container :=
  { name := "S", level := 1, is_enum := false, members := [plainMember "!=" "u32"] }

/-- The enum container of the C10 witness. -/
def c10Enum : Container :=
  { name := "E", level := 1, is_enum := true, members := [plainMember "!=" ""] }

/-- C10 witness: the struct member `!=` (whose snake_case is empty) makes a
struct rename fail, and the same member as an enum variant still succeeds. -/
theorem c10_rename_struct_partial_enum_total_witness :
    isError (Container.rename c10Struct) = true ∧
    isOkE (Container.rename c10Enum) = true :=
  ⟨c10_rename_struct_partial_enum_total.1 c10Struct rfl
      ⟨plainMember "!=" "u32", by simp [c10Struct], by decide, by decide, by decide⟩,
    c10_rename_struct_partial_enum_total.2 c10Enum rfl⟩

/-! ## Structure of `extract_container`: one member per property, in order. -/

theorem extractMembers_spec (props : List (String × Schema)) :
    ∀ (stack : String) (arl : List (String × Nat)) (reqs : List String)
      (cfg : Config) (ms : List Member) (arlOut : List (String × Nat)),
    extractMembers props stack arl reqs cfg = .ok (ms, arlOut) →
    ∀ (i : Nat) (key : String) (value : Schema), props[i]? = some (key, value) →
    ∃ t a3 a4, propRustType key value stack a3 cfg = .ok (t, a4) ∧
      ms[i]? = some (mkExtractedMember key value reqs t) := by
  induction props with
  | nil =>
    intro stack arl reqs cfg ms arlOut hEM i key value hget
    simp at hget
  | cons kv rest ih =>
    intro stack arl reqs cfg ms arlOut hEM i key value hget
    obtain ⟨k0, v0⟩ := kv
    unfold extractMembers at hEM
    split at hEM
    · exact Except.noConfusion hEM
    · rename_i rust_type arl2 hp
      split at hEM
      · exact Except.noConfusion hEM
      · rename_i ms0 arl3 hEM2
        injection hEM with hEMv
        injection hEMv with hms harl
        cases i with
        | zero =>
          simp at hget
          obtain ⟨hk, hv⟩ := hget
          subst hk; subst hv; subst hms
          exact ⟨rust_type, arl, arl2, hp, by simp⟩
        | succ j =>
          simp at hget
          subst hms
          have := ih stack arl2 reqs cfg ms0 arl3 hEM2 j key value hget
          simpa using this

theorem extractMembers_names (props : List (String × Schema)) :
    ∀ (stack : String) (arl : List (String × Nat)) (reqs : List String)
      (cfg : Config) (ms : List Member) (arlOut : List (String × Nat)),
    extractMembers props stack arl reqs cfg = .ok (ms, arlOut) →
    ms.map (fun m => m.name) = props.map (fun kv => kv.1) := by
  induction props with
  | nil =>
    intro stack arl reqs cfg ms arlOut hEM
    unfold extractMembers at hEM
    injection hEM with hEMv
    injection hEMv with hms _
    subst hms
    rfl
  | cons kv rest ih =>
    intro stack arl reqs cfg ms arlOut hEM
    obtain ⟨k0, v0⟩ := kv
    unfold extractMembers at hEM
    split at hEM
    · exact Except.noConfusion hEM
    · rename_i rust_type arl2 hp
      split at hEM
      · exact Except.noConfusion hEM
      · rename_i ms0 arl3 hEM2
        injection hEM with hEMv
        injection hEMv with hms harl
        subst hms
        have hname : (mkExtractedMember k0 v0 reqs rust_type).name = k0 := by
          unfold mkExtractedMember
          split <;> rfl
        simp [hname, ih stack arl2 reqs cfg ms0 arl3 hEM2]

theorem extract_container_members (props : List (String × Schema))
    (stack : String) (arl : List (String × Nat)) (level : Nat) (schema : Schema)
    (cfg : Config) (c : Container) (arl2 : List (String × Nat))
    (h : extract_container props stack arl level schema cfg = .ok (c, arl2)) :
    ∃ ms arl3, extractMembers props stack arl (schema.required.getD []) cfg =
      .ok (ms, arl3) ∧ c.members = ms := by
  unfold extract_container at h
  split at h
  · exact Except.noConfusion h
  · rename_i ms arl3 hp
    injection h with hv
    injection hv with hc harl
    exact ⟨ms, arl3, hp, by rw [← hc]⟩

/-! ## C1: the Overrides engine is not consulted by the analyzer. -/

/-- The compiled rule of the C1 counterexample: exact name `foo`, no schema
test, action `Omit` (its regex set is empty, so name matching is by the exact
index alone, and the schema match always succeeds). -/
def c1OmitRule : CompiledPropertyRule :=
  { match_name := { patterns := [], matchFn := fun _ => false },
    match_schema := none, match_success := .Omit }

/-- The Overrides value of the C1 counterexample: the single exact-only rule
`foo => Omit`, indexed under `foo` (exact-only rules do not join the linear
scan list, exactly as `Overrides::new` builds it). -/
def c1Overrides : Overrides :=
  { property_index := [("foo", [c1OmitRule])], property_rules := [] }

/-- C1 counterexample: for the property `foo` (a plain string schema), the
first matching override rule's action is `Omit`, yet `extract_container`
still produces a member for `foo` by default structural inference — the
property is not absent from the generated Container, so consulting the
Overrides engine before structural inference does not happen. -/
theorem c1_counterexample :
    Overrides.get_property_action c1Overrides "foo" (typedS "string") =
      some .Omit ∧
    extract_container [("foo", typedS "string")] "Kind" [] 0 emptySchema {} =
      .ok ({ name := "Kind", level := 0, docs := none, is_enum := false,
             members := [optAnnotMember "foo" "Option<String>"] }, []) :=
  ⟨rfl, rfl⟩

/-- C1 (amended): the Overrides engine (`get_property_action`, returning the
first matching rule's action) exists but is never consulted by this version
of the analyzer: `extract_container` takes no overrides input and performs
default structural inference for every property, producing exactly one member
per property, in property order, named by the property key — no property is
omitted and no member type is replaced, whatever override rules exist. -/
theorem c1_analyzer_ignores_overrides (props : List (String × Schema))
    (stack : String) (arl : List (String × Nat)) (level : Nat) (schema : Schema)
    (cfg : Config) (c : Container) (arl2 : List (String × Nat))
    (h : extract_container props stack arl level schema cfg = .ok (c, arl2)) :
    c.members.map (fun m => m.name) = props.map (fun kv => kv.1) := by
  obtain ⟨ms, arl3, hEM, hc⟩ := extract_container_members props stack arl level
    schema cfg c arl2 h
  rw [hc]
  exact extractMembers_names props stack arl (schema.required.getD []) cfg ms arl3 hEM

/-- C1 witness: a two-property object (one of which the counterexample's
override would omit) keeps both members, in order. -/
theorem c1_analyzer_ignores_overrides_witness :
    (({ name := "Kind", level := 0, docs := none, is_enum := false,
        members := [optAnnotMember "bar" "Option<bool>",
          optAnnotMember "foo" "Option<String>"] } : Container)).members.map
      (fun m => m.name) = ["bar", "foo"] :=
  c1_analyzer_ignores_overrides
    [("bar", typedS "boolean"), ("foo", typedS "string")] "Kind" [] 0
    emptySchema {} _ [] rfl

/-! ## C2: required properties are unwrapped, others are Option-wrapped. -/

/-- C2: for every property of every analyzed object schema, if the property's
key is listed in the schema's `required` set then the produced member keeps
the bare resolved type, and otherwise the member's type is that type wrapped
in `Option<...>`. -/
theorem c2_required_unwrapped_optional_wrapped (props : List (String × Schema))
    (stack : String) (arl : List (String × Nat)) (level : Nat) (schema : Schema)
    (cfg : Config) (c : Container) (arl2 : List (String × Nat)) (i : Nat)
    (key : String) (value : Schema)
    (h : extract_container props stack arl level schema cfg = .ok (c, arl2))
    (hget : props[i]? = some (key, value)) :
    ∃ t, (∃ a3 a4, propRustType key value stack a3 cfg = .ok (t, a4)) ∧
      ∃ m, c.members[i]? = some m ∧ m.name = key ∧
        m.type_ = (if (schema.required.getD []).contains key then t
          else "Option<" ++ t ++ ">") := by
  obtain ⟨ms, arl3, hEM, hc⟩ := extract_container_members props stack arl level
    schema cfg c arl2 h
  obtain ⟨t, a3, a4, hp, hm⟩ := extractMembers_spec props stack arl
    (schema.required.getD []) cfg ms arl3 hEM i key value hget
  refine ⟨t, ⟨a3, a4, hp⟩, mkExtractedMember key value (schema.required.getD []) t,
    by rw [hc]; exact hm, ?_, ?_⟩
  · unfold mkExtractedMember
    split <;> rfl
  · unfold mkExtractedMember
    split <;> rfl

/-- The container produced in the C2 witness. -/
def c2WitnessContainer : Container :=
  { name := "Kind", level := 0, docs := none, is_enum := false,
    members := [plainMember "id" "String", optAnnotMember "msg" "Option<String>"] }

/-- C2 witness: in a schema requiring `id`, the member for `id` keeps the
bare `String` type. -/
theorem c2_required_unwrapped_optional_wrapped_witness :
    ∃ t, (∃ a3 a4, propRustType "id" (typedS "string") "Kind" a3 {} = .ok (t, a4)) ∧
      ∃ m, c2WitnessContainer.members[0]? = some m ∧ m.name = "id" ∧
        m.type_ = (if (((objS [] (some ["id"])).required).getD []).contains "id"
          then t else "Option<" ++ t ++ ">") :=
  c2_required_unwrapped_optional_wrapped
    [("id", typedS "string"), ("msg", typedS "string")] "Kind" [] 0
    (objS [] (some ["id"])) {} _ [] 0 "id" (typedS "string") rfl rfl

/-! ## C4: condition detection also requires the property key `conditions`. -/

/-- The array element schema of the C4 counterexample: an object carrying all
five canonical condition properties. -/
def c4CondsElement : Schema :=
  objS [("lastTransitionTime", typedS "string"), ("message", typedS "string"),
    ("reason", typedS "string"), ("status", typedS "string"),
    ("type", typedS "string")] none

/-- The array property of the C4 counterexample. -/
def c4CondsArray : Schema := arrayS c4CondsElement

/-- C4 counterexample: a property named `conds` whose array element schema
contains all five of `type`, `status`, `reason`, `message`,
`lastTransitionTime`, analyzed with condition detection enabled, produces a
member referring to the generated container `TestConds` — not
`Vec<Condition>` — because the source additionally requires the property key
to be exactly `conditions`. -/
theorem c4_counterexample :
    is_conditions c4CondsArray = true ∧
    ({} : Config).no_condition = false ∧
    extract_container [("conds", c4CondsArray)] "Test" [] 0 emptySchema {} =
      .ok ({ name := "Test", level := 0, docs := none, is_enum := false,
             members := [optAnnotMember "conds" "Option<Vec<TestConds>>"] },
        [("conds", 1)]) :=
  ⟨rfl, rfl, rfl⟩

/-- C4 (amended): for every array-typed property whose key is exactly
`conditions` and whose element schema contains all five of `type`, `status`,
`reason`, `message`, `lastTransitionTime`, the produced member's type is
`Vec<Condition>` (Option-wrapped when not required) rather than a reference
to a generated custom Container, unless condition detection is disabled in
the config. -/
theorem c4_conditions_detection (props : List (String × Schema)) (stack : String)
    (arl : List (String × Nat)) (level : Nat) (schema : Schema) (cfg : Config)
    (c : Container) (arl2 : List (String × Nat)) (i : Nat) (value : Schema)
    (h : extract_container props stack arl level schema cfg = .ok (c, arl2))
    (hget : props[i]? = some ("conditions", value))
    (htype : value.type_ = some "array")
    (hconds : is_conditions value = true)
    (hcfg : cfg.no_condition = false) :
    ∃ m, c.members[i]? = some m ∧
      m.type_ = (if (schema.required.getD []).contains "conditions"
        then "Vec<Condition>" else "Option<Vec<Condition>>") := by
  obtain ⟨ms, arl3, hEM, hc⟩ := extract_container_members props stack arl level
    schema cfg c arl2 h
  obtain ⟨t, a3, a4, hp, hm⟩ := extractMembers_spec props stack arl
    (schema.required.getD []) cfg ms arl3 hEM i "conditions" value hget
  have ht : t = "Vec<Condition>" := by
    unfold propRustType at hp
    rw [htype] at hp
    simp only [Option.getD_some] at hp
    simp only [show (("array" == "object") = false) from rfl,
      show (("array" == "string") = false) from rfl,
      show (("array" == "boolean") = false) from rfl,
      show (("array" == "date") = false) from rfl,
      show (("array" == "number") = false) from rfl,
      show (("array" == "integer") = false) from rfl,
      show (("array" == "array") = true) from rfl,
      Bool.false_eq_true, if_false, if_true] at hp
    split at hp
    · exact Except.noConfusion hp
    · rename_i array_type recurse_level har
      rw [hcfg, hconds] at hp
      simp at hp
      exact hp.1.symm
  refine ⟨mkExtractedMember "conditions" value (schema.required.getD []) t,
    by rw [hc]; exact hm, ?_⟩
  unfold mkExtractedMember
  split
  · exact ht
  · rw [ht]; rfl

/-- The container produced in the C4 witness. -/
def c4WitnessContainer : Container :=
  { name := "Test", level := 0, docs := none, is_enum := false,
    members := [optAnnotMember "conditions" "Option<Vec<Condition>>"] }

/-- C4 witness: the same element schema under the key `conditions` yields the
canonical `Option<Vec<Condition>>` member. -/
theorem c4_conditions_detection_witness :
    ∃ m, c4WitnessContainer.members[0]? = some m ∧
      m.type_ = (if ((emptySchema.required).getD []).contains "conditions"
        then "Vec<Condition>" else "Option<Vec<Condition>>") :=
  c4_conditions_detection [("conditions", c4CondsArray)] "Test" [] 0 emptySchema
    {} _ [] 0 c4CondsArray rfl rfl rfl rfl rfl

/-! ## C8: resolution of properties with an empty or absent type. -/

/-- The untyped `oneOf`-carrying property of the C8 counterexample. -/
def c8OneOfValue : Schema := oneOfS [typedS "string", typedS "array"]

/-- C8 counterexample: a property with no type, no `x-kubernetes` extension
flags and `relaxed` unset does not make analysis fail when it carries a
`oneOf` list all of whose entries have a type — it resolves to the opaque
value type instead, refuting the claim that in every case other than the two
extension flags the analysis fails unless `config.relaxed` is set. -/
theorem c8_counterexample :
    c8OneOfValue.type_ = none ∧
    c8OneOfValue.xIntOrString = none ∧
    c8OneOfValue.xPreserveUnknownFields = none ∧
    ({} : Config).relaxed = false ∧
    extract_container [("ambassadorId", c8OneOfValue)] "Host" [] 0
        (objS [] (some ["ambassadorId"])) {} =
      .ok ({ name := "Host", level := 0, docs := none, is_enum := false,
             members := [plainMember "ambassadorId" "serde_json::Value"] }, []) :=
  ⟨rfl, rfl, rfl, rfl, rfl⟩

/-- C8 (amended): a property whose schema has an empty or absent type is
resolved exactly by: the int-or-string flag (`IntOrString`); else the
preserve-unknown-fields flag, or a `oneOf` list all of whose entries carry a
type (the opaque value type); else, when `config.relaxed` is set, the member
degrades to a map from string to the opaque value type; otherwise the
analysis of the property fails. -/
theorem c8_empty_type_resolution (key : String) (value : Schema) (stack : String)
    (a : List (String × Nat)) (cfg : Config)
    (h : value.type_.getD "" = "") :
    propRustType key value stack a cfg =
      (if value.xIntOrString.isSome then .ok ("IntOrString", a)
       else if value.xPreserveUnknownFields == some true || oneOfAllTyped value then
         .ok ("serde_json::Value", a)
       else if cfg.relaxed then
         .ok (cfg.map.name ++ "<String, serde_json::Value>", a)
       else .error ("unknown empty dict type for " ++ key)) := by
  unfold propRustType
  rw [h]
  rfl

/-- The int-or-string property of the C8 witness. -/
def c8IosValue : Schema :=
  .mk none none none none none none none none none none none none none
    (some true) none none none

/-- C8 witness: an int-or-string property resolves to `IntOrString`. -/
theorem c8_empty_type_resolution_witness :
    propRustType "port" c8IosValue "Server" [] {} = .ok ("IntOrString", []) := by
  rw [c8_empty_type_resolution "port" c8IosValue "Server" [] {} rfl]
  rfl

/-! ## C6: override loading aggregates one regex error per failing rule. -/

/-- The compile error of one rule, when it has one (`PropertyRule::compile`
returns at most one `regex::Error` per rule, whatever the number of failing
patterns in the rule). -/
def ruleCompileError (eng : RegexEngine) (r : PropertyRule0) : Option String :=
  match r.compile eng with
  | .error e => some e
  | .ok _ => none

theorem overridesNewGo_errors (eng : RegexEngine) (rules : List PropertyRule0) :
    ∀ (errs : List String) (idx : List (String × List CompiledPropertyRule))
      (lin : List CompiledPropertyRule),
    (overridesNewGo eng errs idx lin rules).1 =
      errs ++ rules.filterMap (ruleCompileError eng) := by
  induction rules with
  | nil => intro errs idx lin; simp [overridesNewGo]
  | cons r rest ih =>
    intro errs idx lin
    unfold overridesNewGo
    cases hc : r.compile eng with
    | error e =>
      simp only
      rw [ih]
      simp [ruleCompileError, hc]
    | ok p =>
      obtain ⟨cr, exacts⟩ := p
      simp only
      rw [ih]
      simp [ruleCompileError, hc]

/-- The regex engine of the C6 theorems: `(` and `[` are uncompilable, every
other pattern compiles. -/
def c6Engine : RegexEngine :=
  { compileOne := fun p =>
      if p == "(" || p == "[" then .error ("regex parse error: " ++ p)
      else .ok (fun _ => false) }

/-- A rule whose name matcher carries two uncompilable patterns. -/
def c6BadRule : PropertyRule0 :=
  { match_name := [.Regex "(", .Regex "["], match_schema := none,
    match_success := .Omit }

/-- A rule with one compilable regex pattern. -/
def c6GoodRule : PropertyRule0 :=
  { match_name := [.Regex "bar"], match_schema := none,
    match_success := .Replace "MyType" }

/-- A rule with a single uncompilable pattern. -/
def c6BadRule2 : PropertyRule0 :=
  { match_name := [.Regex "("], match_schema := none, match_success := .Omit }

/-- C6 counterexample: a rule list containing two uncompilable patterns inside
the same rule fails with a single-element error collection — not every
uncompilable pattern of the list contributes an error, because
`PropertyRule::compile` can return only one `regex::Error` per rule. -/
theorem c6_counterexample :
    isError (c6Engine.compileOne "(") = true ∧
    isError (c6Engine.compileOne "[") = true ∧
    c6BadRule.match_name = [.Regex "(", .Regex "["] ∧
    overridesNew c6Engine [c6BadRule] = .error ["regex parse error: ("] :=
  ⟨rfl, rfl, rfl, rfl⟩

/-- C6 (amended): loading a set of override rules either succeeds with all
rules compiled, or fails — producing no Overrides value — with the collected
list of regex compile errors holding exactly one error per failing rule, in
rule order: compilation is not aborted at the first failure, every rule whose
name patterns fail to compile contributes an error, but a rule with several
uncompilable patterns contributes only the error of its first one. -/
theorem c6_override_load_error_collection (eng : RegexEngine)
    (rules : List PropertyRule0) :
    (isError (overridesNew eng rules) = true ↔
      ∃ r ∈ rules, isError (r.compile eng) = true) ∧
    (∀ es, overridesNew eng rules = .error es →
      es = rules.filterMap (ruleCompileError eng) ∧ es ≠ []) := by
  have hgo := overridesNewGo_errors eng rules [] [] []
  rcases hg : overridesNewGo eng [] [] [] rules with ⟨errors, idx, lin⟩
  rw [hg] at hgo
  simp only [List.nil_append] at hgo
  have hnew : overridesNew eng rules =
      (if errors.isEmpty then
        .ok { property_index := idx, property_rules := lin } else .error errors) := by
    unfold overridesNew
    rw [hg]
  constructor
  · constructor
    · intro h
      rw [hnew] at h
      by_cases he : errors.isEmpty
      · rw [if_pos he] at h
        simp [isError] at h
      · have hne : errors ≠ [] := by simpa [List.isEmpty_iff] using he
        rw [hgo] at hne
        have h2 : ¬ ∀ r ∈ rules, ruleCompileError eng r = none := by
          intro hall
          exact hne (List.filterMap_eq_nil_iff.mpr hall)
        push_neg at h2
        obtain ⟨r, hr, hre⟩ := h2
        refine ⟨r, hr, ?_⟩
        unfold ruleCompileError at hre
        revert hre
        cases hc : r.compile eng with
        | error e => intro _; rfl
        | ok p => intro hre; exact absurd rfl hre
    · intro h
      obtain ⟨r, hr, hre⟩ := h
      have hmem : ruleCompileError eng r ≠ none := by
        unfold ruleCompileError
        revert hre
        cases hc : r.compile eng with
        | error e => intro _; simp
        | ok p => intro hre; exact absurd hre (by simp [isError])
      have hne : errors ≠ [] := by
        rw [hgo]
        intro hnil
        exact hmem (List.filterMap_eq_nil_iff.mp hnil r hr)
      rw [hnew, if_neg (by simpa [List.isEmpty_iff] using hne)]
      rfl
  · intro es hes
    rw [hnew] at hes
    by_cases he : errors.isEmpty
    · rw [if_pos he] at hes
      exact Except.noConfusion hes
    · rw [if_neg he] at hes
      injection hes with hesv
      subst hesv
      exact ⟨hgo.symm ▸ rfl, by simpa [List.isEmpty_iff] using he⟩

/-- C6 witness: a compilable rule followed by a rule with one uncompilable
pattern loads to exactly the one-element error list of the failing rule. -/
theorem c6_override_load_error_collection_witness :
    ["regex parse error: ("] =
      [c6GoodRule, c6BadRule2].filterMap (ruleCompileError c6Engine) ∧
    ["regex parse error: ("] ≠ ([] : List String) :=
  (c6_override_load_error_collection c6Engine [c6GoodRule, c6BadRule2]).2
    ["regex parse error: ("] rfl

/-! ## C5: subset matching semantics. -/

theorem schemaListSubsetAll_eq (xs ys : List Schema) :
    schemaListSubsetAll xs ys = xs.all (fun x => ys.any (fun y => schemaIsSubset x y)) := by
  induction xs with
  | nil => simp [schemaListSubsetAll]
  | cons x rest ih => simp [schemaListSubsetAll, ih]

theorem schemaMapSubsetAll_eq (xs ys : List (String × Schema)) :
    schemaMapSubsetAll xs ys =
      xs.all (fun kv => ((lookupAssoc ys kv.1).map (schemaIsSubset kv.2)).getD false) := by
  induction xs with
  | nil => simp [schemaMapSubsetAll]
  | cons kv rest ih =>
    obtain ⟨k, v⟩ := kv
    simp [schemaMapSubsetAll, ih]

theorem schemaListOptIsSubset_eq (o1 o2 : Option (List Schema)) :
    schemaListOptIsSubset o1 o2 = optIsSubset (vecIsSubset schemaIsSubset) o1 o2 := by
  cases o1 <;> cases o2 <;>
    simp [schemaListOptIsSubset, optIsSubset, vecIsSubset, schemaListSubsetAll_eq]

theorem propsOptIsSubset_eq (o1 o2 : Option (List (String × Schema))) :
    propsOptIsSubset o1 o2 = optIsSubset (mapIsSubset schemaIsSubset) o1 o2 := by
  cases o1 <;> cases o2 <;>
    simp [propsOptIsSubset, optIsSubset, mapIsSubset, schemaMapSubsetAll_eq]

theorem enumOptIsSubset_eq (o1 o2 : Option (List JValue)) :
    enumOptIsSubset o1 o2 = optIsSubset (vecIsSubset jvalueIsSubset) o1 o2 := by
  cases o1 <;> cases o2 <;>
    simp [enumOptIsSubset, optIsSubset, vecIsSubset, jvalueListIsSubset]

theorem reqOptIsSubset_eq (o1 o2 : Option (List String)) :
    reqOptIsSubset o1 o2 = optIsSubset (vecIsSubset (fun a b => a == b)) o1 o2 := by
  cases o1 <;> cases o2 <;> rfl

theorem notOptIsSubset_eq (o1 o2 : Option Schema) :
    notOptIsSubset o1 o2 = optIsSubset schemaIsSubset o1 o2 := by
  cases o1 <;> cases o2 <;> simp [notOptIsSubset, optIsSubset]

theorem apOptIsSubset_eq (o1 o2 : Option (Schema ⊕ Bool)) :
    apOptIsSubset o1 o2 = optIsSubset orBoolIsSubset o1 o2 := by
  cases o1 <;> cases o2 <;> simp [apOptIsSubset, optIsSubset]

theorem optEqSubset_eq {α : Type} [BEq α] (o1 o2 : Option α) :
    optEqSubset o1 o2 = optIsSubset (fun a b => a == b) o1 o2 := by
  cases o1 <;> cases o2 <;> rfl

/-- C5: subset matching.  `Subset(T)` matches a candidate `C` through
`schemaIsSubset`, which holds iff every compared field of `T` is
subset-compatible with the same field of `C`, where: an absent (`None`) field
of `T` subset-matches anything, while a present field requires presence in
`C`; map subset requires `len(T) ≤ len(C)` and every key of `T` to exist in
`C` with a subset-compatible value; and sequence subset requires
`len(T) ≤ len(C)` and every element of `T` to subset-match some (not
positionally corresponding) element of `C`. -/
theorem c5_subset_matching_semantics :
    (∀ (t c : Schema), (PropertySchema.Subset t).matches c = schemaIsSubset t c) ∧
    (∀ (t c : Schema), schemaIsSubset t c =
      (optIsSubset (fun a b => a == b) t.type_ c.type_ &&
       optIsSubset (vecIsSubset jvalueIsSubset) t.enum_ c.enum_ &&
       orArrayOptIsSubset t.items c.items &&
       orArrayOptIsSubset t.additionalItems c.additionalItems &&
       optIsSubset (mapIsSubset schemaIsSubset) t.properties c.properties &&
       optIsSubset orBoolIsSubset t.additionalProperties c.additionalProperties &&
       optIsSubset (vecIsSubset (fun a b => a == b)) t.required c.required &&
       optIsSubset (vecIsSubset schemaIsSubset) t.oneOf c.oneOf &&
       optIsSubset (vecIsSubset schemaIsSubset) t.allOf c.allOf &&
       optIsSubset (vecIsSubset schemaIsSubset) t.anyOf c.anyOf &&
       optIsSubset schemaIsSubset t.not_ c.not_ &&
       optIsSubset (fun a b => a == b) t.xIntOrString c.xIntOrString &&
       optIsSubset (fun a b => a == b) t.xPreserveUnknownFields c.xPreserveUnknownFields &&
       optIsSubset (fun a b => a == b) t.xListType c.xListType &&
       optIsSubset (fun a b => a == b) t.xMapType c.xMapType)) ∧
    (∀ (α : Type) (f : α → α → Bool) (c : Option α), optIsSubset f none c = true) ∧
    (∀ (α : Type) (f : α → α → Bool) (x y : α),
      optIsSubset f (some x) (some y) = f x y) ∧
    (∀ (α : Type) (f : α → α → Bool) (x : α), optIsSubset f (some x) none = false) ∧
    (∀ (β : Type) (f : β → β → Bool) (xs ys : List (String × β)),
      mapIsSubset f xs ys = true ↔
        (xs.length ≤ ys.length ∧ ∀ k v, (k, v) ∈ xs →
          ∃ y, lookupAssoc ys k = some y ∧ f v y = true)) ∧
    (∀ (α : Type) (f : α → α → Bool) (xs ys : List α),
      vecIsSubset f xs ys = true ↔
        (xs.length ≤ ys.length ∧ ∀ x ∈ xs, ∃ y ∈ ys, f x y = true)) := by
  refine ⟨fun t c => rfl, ?_, fun α f c => by cases c <;> rfl, fun α f x y => rfl,
    fun α f x => rfl, ?_, ?_⟩
  · intro t c
    cases t with
    | mk t1 f1 d1 p1 r1 i1 ai1 ap1 e1 o1 al1 an1 n1 x1 y1 l1 m1 =>
      cases c with
      | mk t2 f2 d2 p2 r2 i2 ai2 ap2 e2 o2 al2 an2 n2 x2 y2 l2 m2 =>
        show schemaIsSubset _ _ = _
        rw [schemaIsSubset]
        simp only [Schema.type_, Schema.enum_, Schema.items, Schema.additionalItems,
          Schema.properties, Schema.additionalProperties, Schema.required,
          Schema.oneOf, Schema.allOf, Schema.anyOf, Schema.not_,
          Schema.xIntOrString, Schema.xPreserveUnknownFields, Schema.xListType,
          Schema.xMapType]
        rw [optEqSubset_eq t1 t2, enumOptIsSubset_eq, propsOptIsSubset_eq,
          apOptIsSubset_eq, reqOptIsSubset_eq, schemaListOptIsSubset_eq o1 o2,
          schemaListOptIsSubset_eq al1 al2, schemaListOptIsSubset_eq an1 an2,
          notOptIsSubset_eq, optEqSubset_eq x1 x2, optEqSubset_eq y1 y2,
          optEqSubset_eq l1 l2, optEqSubset_eq m1 m2]
  · intro β f xs ys
    by_cases hlen : ys.length < xs.length
    · simp only [mapIsSubset, if_pos hlen]
      constructor
      · intro h
        exact absurd h (by simp)
      · rintro ⟨hle, _⟩
        omega
    · simp only [mapIsSubset, if_neg hlen]
      rw [List.all_eq_true]
      constructor
      · intro h
        refine ⟨by omega, ?_⟩
        intro k v hkv
        have h2 := h (k, v) hkv
        revert h2
        cases hl : lookupAssoc ys k with
        | none => intro h2; exact absurd h2 (by simp)
        | some y => intro h2; exact ⟨y, rfl, by simpa using h2⟩
      · rintro ⟨hle, hall⟩
        intro kv hkv
        obtain ⟨k, v⟩ := kv
        obtain ⟨y, hy, hf⟩ := hall k v hkv
        simp only [hy, Option.map_some, Option.getD_some]
        exact hf
  · intro α f xs ys
    by_cases hlen : ys.length < xs.length
    · simp only [vecIsSubset, if_pos hlen]
      constructor
      · intro h
        exact absurd h (by simp)
      · rintro ⟨hle, _⟩
        omega
    · simp only [vecIsSubset, if_neg hlen]
      rw [List.all_eq_true]
      constructor
      · intro h
        refine ⟨by omega, ?_⟩
        intro x hx
        have h2 := h x hx
        rw [List.any_eq_true] at h2
        exact h2
      · rintro ⟨hle, hall⟩
        intro x hx
        rw [List.any_eq_true]
        exact hall x hx

/-- C5 witness: a concrete instantiation of the map- and sequence-subset
characterizations at string keys and boolean element tests. -/
theorem c5_subset_matching_semantics_witness :
    mapIsSubset (fun a b : Bool => a == b) [("foo", true), ("baz", true)]
        [("bar", true), ("baz", true), ("foo", true)] = true ∧
    vecIsSubset (fun a b : Bool => a == b) [true, true] [false, true, true] = true :=
  ⟨(c5_subset_matching_semantics.2.2.2.2.2.1 Bool (fun a b => a == b)
      [("foo", true), ("baz", true)]
      [("bar", true), ("baz", true), ("foo", true)]).mpr
    (by refine ⟨by decide, ?_⟩
        intro k v hkv
        simp only [List.mem_cons, List.not_mem_nil, or_false] at hkv
        rcases hkv with h1 | h1
        · injection h1 with hk hv
          subst hk; subst hv
          exact ⟨true, rfl, rfl⟩
        · injection h1 with hk hv
          subst hk; subst hv
          exact ⟨true, rfl, rfl⟩),
   (c5_subset_matching_semantics.2.2.2.2.2.2 Bool (fun a b => a == b)
      [true, true] [false, true, true]).mpr (by decide)⟩

/-! ## C9: scalar enum properties produce dedicated enum containers. -/

theorem enumMembers_ok_shape (lits : List JValue) :
    ∀ (ms : List Member), enumMembers lits = .ok ms →
    ms.length = lits.length ∧
    (∀ (i : Nat) (l : JValue), lits[i]? = some l →
      ∃ nm, enumLiteralName l = .ok nm ∧ ms[i]? = some (plainMember nm "")) := by
  induction lits with
  | nil =>
    intro ms h
    unfold enumMembers at h
    injection h with hv
    subst hv
    exact ⟨rfl, by intro i l hl; simp at hl⟩
  | cons l0 rest ih =>
    intro ms h
    unfold enumMembers at h
    split at h
    · exact Except.noConfusion h
    · rename_i nm hnm
      split at h
      · exact Except.noConfusion h
      · rename_i ms0 hms0
        injection h with hv
        subst hv
        obtain ⟨hlen, helem⟩ := ih ms0 hms0
        refine ⟨by simp [hlen], ?_⟩
        intro i l hl
        cases i with
        | zero =>
          simp at hl
          subst hl
          exact ⟨nm, hnm, by simp [plainMember]⟩
        | succ j =>
          simp at hl
          have := helem j l hl
          simpa using this

theorem enumMembers_total (lits : List JValue)
    (h : ∀ l ∈ lits, isError (enumLiteralName l) = false) :
    ∃ ms, enumMembers lits = .ok ms := by
  induction lits with
  | nil => exact ⟨[], rfl⟩
  | cons l0 rest ih =>
    have h0 := h l0 (by simp)
    obtain ⟨ms0, hms0⟩ := ih (fun l hl => h l (by simp [hl]))
    cases hnm : enumLiteralName l0 with
    | error e => rw [hnm] at h0; exact absurd h0 (by simp [isError])
    | ok nm =>
      refine ⟨plainMember nm "" :: ms0, ?_⟩
      unfold enumMembers
      rw [hnm, hms0]
      rfl

theorem enumMembers_err (lits : List JValue)
    (h : ∃ l ∈ lits, isError (enumLiteralName l) = true) :
    ∃ e, enumMembers lits = .error e := by
  induction lits with
  | nil => simp at h
  | cons l0 rest ih =>
    obtain ⟨l, hl, he⟩ := h
    cases hnm : enumLiteralName l0 with
    | error e => exact ⟨e, by unfold enumMembers; rw [hnm]⟩
    | ok nm =>
      rcases List.mem_cons.mp hl with hh | ht
      · subst hh
        rw [hnm] at he
        exact absurd he (by simp [isError])
      · obtain ⟨e, hrest⟩ := ih ⟨l, ht, he⟩
        refine ⟨e, ?_⟩
        unfold enumMembers
        rw [hnm, hrest]

theorem analyze_enum_properties_ok (lits : List JValue) (stack : String)
    (level : Nat) (schema : Schema) (ms : List Member)
    (h : enumMembers lits = .ok ms) :
    analyze_enum_properties lits stack level schema =
      .ok { name := stack, members := ms, level := level,
            docs := schema.description, is_enum := true } := by
  unfold analyze_enum_properties
  rw [h]

theorem analyze_enum_properties_err (lits : List JValue) (stack : String)
    (level : Nat) (schema : Schema)
    (h : ∃ l ∈ lits, isError (enumLiteralName l) = true) :
    isError (analyze_enum_properties lits stack level schema) = true := by
  obtain ⟨e, he⟩ := enumMembers_err lits h
  unfold analyze_enum_properties
  rw [he]
  rfl

/-- The scalar-with-enum dispatch of `find_containers`: a property whose type
is neither `object`, `array` nor empty and that carries an `enum` list makes
`find_containers` insert the container built by `analyze_enum_properties` at
the stacked name, at the same level, before processing the remaining
properties. -/
theorem find_containers_scalar_enum (key : String) (value : Schema)
    (rest : List (String × Schema)) (stack : String) (arl : List (String × Nat))
    (level : Nat) (schema : Schema) (cfg : Config) (t : String)
    (lits : List JValue)
    (hskip : (level == 0 && IGNORED_KEYS.contains key) = false)
    (hty : value.type_ = some t)
    (hto : t ≠ "object") (hta : t ≠ "array") (hte : t ≠ "")
    (hen : value.enum_ = some lits) :
    find_containers ((key, value) :: rest) stack arl level schema cfg =
      (match analyze_enum_properties lits (stack ++ toUpperCamelCase key) level
          schema with
       | .error e => .error e
       | .ok c =>
         match find_containers rest stack arl level schema cfg with
         | .error e => .error e
         | .ok restRes => .ok (outputExtend (outputInsert [] c) restRes)) := by
  have hgd : value.type_.getD "" = t := by rw [hty]; rfl
  conv_lhs => unfold find_containers
  rw [hskip]
  simp only [Bool.false_eq_true, if_false]
  rw [hgd]
  split
  · rename_i e heq
    split at heq
    · exact absurd rfl hto
    · exact absurd rfl hta
    · exact absurd rfl hte
    · rw [hen] at heq
      simp only at heq
      split at heq
      · rename_i e2 haep
        injection heq with he2
        subst he2
        rfl
      · exact Except.noConfusion heq
  · rename_i contribution heq
    split at heq
    · exact absurd rfl hto
    · exact absurd rfl hta
    · exact absurd rfl hte
    · rw [hen] at heq
      simp only at heq
      split at heq
      · exact Except.noConfusion heq
      · rename_i c haep
        injection heq with hc
        subst hc
        cases hr : find_containers rest stack arl level schema cfg with
        | error e => rfl
        | ok restRes => rfl

/-- Error propagation in `find_containers`: if the remaining properties fail,
a property list extending them fails too. -/
theorem find_containers_cons_err (key : String) (value : Schema)
    (rest : List (String × Schema)) (stack : String) (arl : List (String × Nat))
    (level : Nat) (schema : Schema) (cfg : Config)
    (h : isError (find_containers rest stack arl level schema cfg) = true) :
    isError (find_containers ((key, value) :: rest) stack arl level schema cfg) =
      true := by
  unfold find_containers
  split
  · exact h
  · cases hfc : find_containers rest stack arl level schema cfg with
    | ok r => rw [hfc] at h; simp [isError] at h
    | error e =>
      dsimp only
      split <;> rfl

/-- A bad scalar-enum property somewhere in the list makes `find_containers`
fail. -/
theorem find_containers_bad_enum_err (props : List (String × Schema)) :
    ∀ (stack : String) (arl : List (String × Nat)) (level : Nat)
      (schema : Schema) (cfg : Config),
    (∃ kv ∈ props, (level == 0 && IGNORED_KEYS.contains kv.1) = false ∧
      (∃ t, kv.2.type_ = some t ∧ t ≠ "object" ∧ t ≠ "array" ∧ t ≠ "") ∧
      ∃ lits, kv.2.enum_ = some lits ∧
        ∃ l ∈ lits, isError (enumLiteralName l) = true) →
    isError (find_containers props stack arl level schema cfg) = true := by
  induction props with
  | nil => intro stack arl level schema cfg h; simp at h
  | cons kv0 rest ih =>
    intro stack arl level schema cfg h
    obtain ⟨kv, hkv, hskip, ⟨t, hty, hto, hta, hte⟩, lits, hen, hbad⟩ := h
    rcases List.mem_cons.mp hkv with hh | htail
    · subst hh
      obtain ⟨key, value⟩ := kv
      rw [find_containers_scalar_enum key value rest stack arl level schema cfg t
        lits hskip hty hto hta hte hen]
      have haep := analyze_enum_properties_err lits (stack ++ toUpperCamelCase key)
        level schema hbad
      revert haep
      cases ha : analyze_enum_properties lits (stack ++ toUpperCamelCase key)
          level schema with
      | error e => intro _; rfl
      | ok c => intro haep; exact absurd haep (by simp [isError])
    · obtain ⟨key, value⟩ := kv0
      exact find_containers_cons_err key value rest stack arl level schema cfg
        (ih stack arl level schema cfg
          ⟨kv, htail, hskip, ⟨t, hty, hto, hta, hte⟩, lits, hen, hbad⟩)

/-- A bad scalar-enum property directly under an object (or non-object)
schema without `additionalProperties` makes the whole `analyze_` call fail. -/
theorem analyze__bad_enum_err (schema : Schema) (current stack : String)
    (level : Nat) (cfg : Config)
    (hap : schema.additionalProperties = none)
    (hbad : ∃ kv ∈ schema.properties.getD [],
      (level == 0 && IGNORED_KEYS.contains kv.1) = false ∧
      (∃ t, kv.2.type_ = some t ∧ t ≠ "object" ∧ t ≠ "array" ∧ t ≠ "") ∧
      ∃ lits, kv.2.enum_ = some lits ∧
        ∃ l ∈ lits, isError (enumLiteralName l) = true) :
    isError (analyze_ schema current stack level cfg) = true := by
  obtain ⟨kv, hkv, hrest⟩ := hbad
  have hprops : ∀ arl1, isError (find_containers (schema.properties.getD [])
      (toUpperCamelCase stack) arl1 level schema cfg) = true := fun arl1 =>
    find_containers_bad_enum_err (schema.properties.getD [])
      (toUpperCamelCase stack) arl1 level schema cfg ⟨kv, hkv, hrest⟩
  unfold analyze_
  simp only
  split
  · rfl
  · rename_i heq
    exfalso
    split at heq
    · split at heq
      · rename_i s h
        rw [hap] at h
        exact Option.noConfusion h
      · rename_i h
        rw [hap] at h
        exact Option.noConfusion h
      · split at heq
        · rename_i hemp
          rw [Bool.and_eq_true] at hemp
          have hnil : schema.properties.getD [] = [] :=
            List.isEmpty_iff.mp hemp.1
          rw [hnil] at hkv
          simp at hkv
        · split at heq
          · exact Except.noConfusion heq
          · injection heq with hv
            exact Option.noConfusion hv
    · injection heq with hv
      exact Option.noConfusion hv
  · rename_i res1 arl1 heq
    split
    · rfl
    · rename_i extras hex2
      exfalso
      split at hex2
      · rename_i s h
        rw [hap] at h
        exact Option.noConfusion h
      · have hh := hprops arl1
        rw [hex2] at hh
        exact absurd hh (by simp [isError])

/-- C9: a scalar (non-object, non-array, non-empty-typed) property carrying an
`enum` literal list makes the analysis emit a dedicated enum container, named
by the stacked property name, whose members are named by the literal values in
the list's order and all carry the empty type marker; string literals and
non-negative integer literals are accepted, signed integers, floats, and
non-scalar literals are rejected, and one rejected literal under an analyzed
object schema makes the whole `analyze_` call fail. -/
theorem c9_scalar_enum_emission :
    (∀ s, enumLiteralName (.str s) = .ok s) ∧
    (∀ n, enumLiteralName (.num (.uint n)) = .ok (toString n)) ∧
    (∀ n, isError (enumLiteralName (.num (.int n))) = true) ∧
    (∀ t, isError (enumLiteralName (.num (.float t))) = true) ∧
    (isError (enumLiteralName .null) = true) ∧
    (∀ b, isError (enumLiteralName (.bool b)) = true) ∧
    (∀ xs, isError (enumLiteralName (.arr xs)) = true) ∧
    (∀ fs, isError (enumLiteralName (.obj fs)) = true) ∧
    (∀ (lits : List JValue),
      (∀ l ∈ lits, isError (enumLiteralName l) = false) →
      ∃ ms, enumMembers lits = .ok ms) ∧
    (∀ (key : String) (value : Schema) (rest : List (String × Schema))
        (stack : String) (arl : List (String × Nat)) (level : Nat)
        (schema : Schema) (cfg : Config) (t : String) (lits : List JValue)
        (ms : List Member),
      (level == 0 && IGNORED_KEYS.contains key) = false →
      value.type_ = some t → t ≠ "object" → t ≠ "array" → t ≠ "" →
      value.enum_ = some lits → enumMembers lits = .ok ms →
      (find_containers ((key, value) :: rest) stack arl level schema cfg =
        match find_containers rest stack arl level schema cfg with
        | .error e => .error e
        | .ok restRes =>
          .ok (outputExtend
            (outputInsert [] { name := stack ++ toUpperCamelCase key,
                               members := ms, level := level,
                               docs := schema.description, is_enum := true })
            restRes)) ∧
      ms.length = lits.length ∧
      ∀ (i : Nat) (l : JValue), lits[i]? = some l →
        ∃ nm, enumLiteralName l = .ok nm ∧ ms[i]? = some (plainMember nm "")) ∧
    (∀ (schema : Schema) (current stack : String) (level : Nat) (cfg : Config),
      schema.additionalProperties = none →
      (∃ kv ∈ schema.properties.getD [],
        (level == 0 && IGNORED_KEYS.contains kv.1) = false ∧
        (∃ t, kv.2.type_ = some t ∧ t ≠ "object" ∧ t ≠ "array" ∧ t ≠ "") ∧
        ∃ lits, kv.2.enum_ = some lits ∧
          ∃ l ∈ lits, isError (enumLiteralName l) = true) →
      isError (analyze_ schema current stack level cfg) = true) := by
  refine ⟨fun s => rfl, fun n => rfl, fun n => rfl, fun t => rfl, rfl,
    fun b => rfl, fun xs => rfl, fun fs => rfl, enumMembers_total, ?_,
    analyze__bad_enum_err⟩
  intro key value rest stack arl level schema cfg t lits ms hskip hty hto hta
    hte hen hms
  obtain ⟨hlen, hshape⟩ := enumMembers_ok_shape lits ms hms
  refine ⟨?_, hlen, hshape⟩
  rw [find_containers_scalar_enum key value rest stack arl level schema cfg t
    lits hskip hty hto hta hte hen,
    analyze_enum_properties_ok lits (stack ++ toUpperCamelCase key) level
      schema ms hms]

theorem c9_scalar_enum_emission_witness :
    (find_containers [("operator", typedEnumS "string"
        [.str "In", .str "NotIn", .str "Exists", .str "DoesNotExist"])]
        "Kind" [] 1 emptySchema {} =
      match find_containers [] "Kind" [] 1 emptySchema {} with
      | .error e => .error e
      | .ok restRes => .ok (outputExtend (outputInsert []
          { name := "KindOperator",
            members := [plainMember "In" "", plainMember "NotIn" "",
                        plainMember "Exists" "", plainMember "DoesNotExist" ""],
            level := 1, docs := none, is_enum := true }) restRes)) ∧
    isError (analyze_ (objS [("mode", typedEnumS "string"
        [.num (.int (-1))])] none) "" "Kind" 0 {}) = true := by
  constructor
  · exact (c9_scalar_enum_emission.2.2.2.2.2.2.2.2.2.1 "operator"
      (typedEnumS "string"
        [.str "In", .str "NotIn", .str "Exists", .str "DoesNotExist"])
      [] "Kind" [] 1 emptySchema {} "string"
      [.str "In", .str "NotIn", .str "Exists", .str "DoesNotExist"]
      [plainMember "In" "", plainMember "NotIn" "", plainMember "Exists" "",
       plainMember "DoesNotExist" ""]
      (by decide) rfl (by decide) (by decide) (by decide) rfl rfl).1
  · exact c9_scalar_enum_emission.2.2.2.2.2.2.2.2.2.2 _ "" "Kind" 0 {} rfl
      ⟨("mode", typedEnumS "string" [.num (.int (-1))]),
        by simp [objS, Schema.properties], by decide,
        ⟨"string", rfl, by decide, by decide, by decide⟩,
        [.num (.int (-1))], rfl, .num (.int (-1)), by simp, rfl⟩

end Kopium
